import Mathlib

/-!
Verification development for the ShogiStack server
(files `gameUtils.js`, `index.js`, and an earlier server iteration that
carries the full move validator with the drop-pawn-mate rule,
`hasLegalMoves` and `isCheckmate`).

The JavaScript code is shallowly embedded:

* JS numbers that hold board coordinates, clock values and counters are
  modelled as `Int` (all arithmetic involved is exact integer
  arithmetic; `Math.floor(x/1000)` becomes `Int.fdiv x 1000`).
* A board is a 9×9 array of arrays indexed `[y][x]`; it is modelled as
  `List (List (Option Piece))` with total accessors `boardGet` /
  `boardSet` that return `none` / leave the board unchanged outside the
  9×9 range.  The code only reads or writes out-of-range squares on
  malformed client moves, where the JS program either sees `undefined`
  (falsy, leading to rejection) or throws; both give "no state change",
  which the total model reproduces.
* The JS hand objects (fourteen numeric fields, one per key of
  `EMPTY_HAND`) are modelled by the structure `Hand`.
* A JS function that can throw a `TypeError` on malformed data
  (`applyMove` reading an empty `from` square) is modelled with
  `Option`, `none` standing for the exception.
-/

inductive Turn where
  | sente
  | gote
deriving DecidableEq

def otherTurn : Turn → Turn
  | .sente => .gote
  | .gote => .sente

inductive PieceType where
  | Pawn
  | Lance
  | Knight
  | Silver
  | Gold
  | Bishop
  | Rook
  | King
  | PromotedPawn
  | PromotedLance
  | PromotedKnight
  | PromotedSilver
  | Horse
  | Dragon
deriving DecidableEq

structure Piece where
  type : PieceType
  owner : Turn
  isPromotedPc : Bool
deriving DecidableEq

structure Pos where
  x : Int
  y : Int
deriving DecidableEq

/-- A client move object: `{from, to, piece, drop, isPromoted}`.
`fromSq = none` models a `from` field that is not an object
(drops carry `from: 'hand'` in the source). -/
structure Move where
  fromSq : Option Pos
  toSq : Pos
  piece : PieceType
  drop : Bool
  isPromotedMv : Bool
deriving DecidableEq

/-- A hand object: the fourteen numeric fields of `EMPTY_HAND`. -/
structure Hand where
  pawn : Int
  lance : Int
  knight : Int
  silver : Int
  gold : Int
  bishop : Int
  rook : Int
  king : Int
  promotedPawn : Int
  promotedLance : Int
  promotedKnight : Int
  promotedSilver : Int
  horse : Int
  dragon : Int
deriving DecidableEq

def Hand.get (h : Hand) : PieceType → Int
  | .Pawn => h.pawn
  | .Lance => h.lance
  | .Knight => h.knight
  | .Silver => h.silver
  | .Gold => h.gold
  | .Bishop => h.bishop
  | .Rook => h.rook
  | .King => h.king
  | .PromotedPawn => h.promotedPawn
  | .PromotedLance => h.promotedLance
  | .PromotedKnight => h.promotedKnight
  | .PromotedSilver => h.promotedSilver
  | .Horse => h.horse
  | .Dragon => h.dragon

def Hand.set (h : Hand) (k : PieceType) (v : Int) : Hand :=
  match k with
  | .Pawn => { h with pawn := v }
  | .Lance => { h with lance := v }
  | .Knight => { h with knight := v }
  | .Silver => { h with silver := v }
  | .Gold => { h with gold := v }
  | .Bishop => { h with bishop := v }
  | .Rook => { h with rook := v }
  | .King => { h with king := v }
  | .PromotedPawn => { h with promotedPawn := v }
  | .PromotedLance => { h with promotedLance := v }
  | .PromotedKnight => { h with promotedKnight := v }
  | .PromotedSilver => { h with promotedSilver := v }
  | .Horse => { h with horse := v }
  | .Dragon => { h with dragon := v }

/-- `h[k] += d` (models the JS `++` / `--` on a hand field). -/
def Hand.add (h : Hand) (k : PieceType) (d : Int) : Hand :=
  h.set k (h.get k + d)

/-- `EMPTY_HAND` (all fourteen counters zero). -/
def EMPTY_HAND : Hand :=
  ⟨0, 0, 0, 0, 0, 0, 0, 0, 0, 0, 0, 0, 0, 0⟩

structure Hands where
  sente : Hand
  gote : Hand
deriving DecidableEq

def Hands.get (h : Hands) : Turn → Hand
  | .sente => h.sente
  | .gote => h.gote

def Hands.set (h : Hands) (t : Turn) (v : Hand) : Hands :=
  match t with
  | .sente => { h with sente := v }
  | .gote => { h with gote := v }

/-- `hands[t][k] += d`. -/
def Hands.add (h : Hands) (t : Turn) (k : PieceType) (d : Int) : Hands :=
  h.set t ((h.get t).add k d)

def emptyHands : Hands := ⟨EMPTY_HAND, EMPTY_HAND⟩

def Board : Type := List (List (Option Piece))

instance : DecidableEq Board := by
  unfold Board
  infer_instance

/-- `board[y][x]`, total: `none` outside the 9×9 range. -/
def boardGet (b : Board) (y x : Int) : Option Piece :=
  if 0 ≤ y ∧ y ≤ 8 ∧ 0 ≤ x ∧ x ≤ 8 then
    (List.getD b y.toNat []).getD x.toNat none
  else
    none

/-- `board[y][x] = v`, total: no-op outside the 9×9 range. -/
def boardSet (b : Board) (y x : Int) (v : Option Piece) : Board :=
  if 0 ≤ y ∧ y ≤ 8 ∧ 0 ≤ x ∧ x ≤ 8 then
    List.set b y.toNat (List.set (List.getD b y.toNat []) x.toNat v)
  else
    b

def emptyBoard : Board := List.replicate 9 (List.replicate 9 none)

/-- The local helper `place(x, y, type, owner)` of `createInitialBoard`. -/
def place (x y : Int) (t : PieceType) (o : Turn) (b : Board) : Board :=
  boardSet b y x (some ⟨t, o, false⟩)

/-- `createInitialBoard`, with the `place` calls in source order. -/
def createInitialBoard : Board :=
  emptyBoard
  |> place 0 0 .Lance .gote |> place 1 0 .Knight .gote |> place 2 0 .Silver .gote
  |> place 3 0 .Gold .gote |> place 4 0 .King .gote |> place 5 0 .Gold .gote
  |> place 6 0 .Silver .gote |> place 7 0 .Knight .gote |> place 8 0 .Lance .gote
  |> place 1 1 .Rook .gote |> place 7 1 .Bishop .gote
  |> (fun b => (List.range 9).foldl (fun b i => place (Int.ofNat i) 2 .Pawn .gote b) b)
  |> place 0 8 .Lance .sente |> place 1 8 .Knight .sente |> place 2 8 .Silver .sente
  |> place 3 8 .Gold .sente |> place 4 8 .King .sente |> place 5 8 .Gold .sente
  |> place 6 8 .Silver .sente |> place 7 8 .Knight .sente |> place 8 8 .Lance .sente
  |> place 7 7 .Rook .sente |> place 1 7 .Bishop .sente
  |> (fun b => (List.range 9).foldl (fun b i => place (Int.ofNat i) 6 .Pawn .sente b) b)

def getReversePieceType : PieceType → PieceType
  | .PromotedPawn => .Pawn
  | .PromotedLance => .Lance
  | .PromotedKnight => .Knight
  | .PromotedSilver => .Silver
  | .Horse => .Bishop
  | .Dragon => .Rook
  | t => t

def promotePiece : PieceType → PieceType
  | .Pawn => .PromotedPawn
  | .Lance => .PromotedLance
  | .Knight => .PromotedKnight
  | .Silver => .PromotedSilver
  | .Bishop => .Horse
  | .Rook => .Dragon
  | t => t

/-- The body of the `while` loop of `hasObstacle`.  The JS loop steps by
`(dx, dy) = (sign(x2-x1), sign(y2-y1))` until it reaches `(x2, y2)`;
for the aligned calls made by `canPieceMoveTo` it performs at most
`max |x2-x1| |y2-y1|` iterations, which is the fuel passed here.  (On a
non-aligned call the JS loop would run off the board and throw;
`canPieceMoveTo` never makes such a call.) -/
def hasObstacleGo (board : Board) (x2 y2 dx dy : Int) : Nat → Int → Int → Bool
  | 0, _, _ => false
  | fuel + 1, x, y =>
    if x = x2 ∧ y = y2 then false
    else if boardGet board y x ≠ none then true
    else hasObstacleGo board x2 y2 dx dy fuel (x + dx) (y + dy)

def hasObstacle (x1 y1 x2 y2 : Int) (board : Board) : Bool :=
  let dx := (x2 - x1).sign
  let dy := (y2 - y1).sign
  hasObstacleGo board x2 y2 dx dy (max (x2 - x1).natAbs (y2 - y1).natAbs) (x1 + dx) (y1 + dy)

/-- `canPieceMoveTo(board, from, to, pieceObj, currentTurn)`. -/
def canPieceMoveTo (board : Board) (fromP toP : Pos) (pieceObj : Piece) (currentTurn : Turn) :
    Bool :=
  let dx := toP.x - fromP.x
  let dy := toP.y - fromP.y
  let forward : Int := if currentTurn = .sente then -1 else 1
  let promoted := pieceObj.isPromotedPc
  let goldMove : Bool :=
    if (dx.natAbs = 1 ∧ dy = 0) ∨ (dx.natAbs = 0 ∧ dy.natAbs = 1) then true
    else if dx.natAbs = 1 ∧ dy = forward then true
    else false
  match pieceObj.type with
  | .Pawn => if !promoted then (if dx = 0 ∧ dy = forward then true else false) else goldMove
  | .King => if dx.natAbs ≤ 1 ∧ dy.natAbs ≤ 1 then true else false
  | .Gold => goldMove
  | .Silver =>
    if promoted then goldMove
    else if dx.natAbs ≤ 1 ∧ dy = forward then true
    else if dx.natAbs = 1 ∧ dy = -forward then true
    else false
  | .Knight =>
    if promoted then goldMove
    else if dx.natAbs = 1 ∧ dy = forward * 2 then true else false
  | .Lance =>
    if promoted then goldMove
    else if dx ≠ 0 then false
    else if (if currentTurn = .sente then 0 ≤ dy else dy ≤ 0) then false
    else !hasObstacle fromP.x fromP.y toP.x toP.y board
  | .Bishop | .Horse =>
    if dx.natAbs = dy.natAbs then !hasObstacle fromP.x fromP.y toP.x toP.y board
    else if promoted ∧ dx.natAbs + dy.natAbs = 1 then true
    else false
  | .Rook | .Dragon =>
    if dx = 0 ∨ dy = 0 then !hasObstacle fromP.x fromP.y toP.x toP.y board
    else if promoted ∧ dx.natAbs ≤ 1 ∧ dy.natAbs ≤ 1 then true
    else false
  | .PromotedPawn | .PromotedLance | .PromotedKnight | .PromotedSilver => goldMove

structure MoveRes where
  board : Board
  hands : Hands
  turn : Turn
deriving DecidableEq

/-- `applyMove(currentBoard, currentHands, move, currentTurn)`.

The JS function first deep-copies the board and both hands, so the pure
value-level model simply builds the new values; `none` models the
`TypeError` the JS code raises when a board move names an empty (or
out-of-range) `from` square. -/
def applyMove? (currentBoard : Board) (currentHands : Hands) (move : Move)
    (currentTurn : Turn) : Option MoveRes :=
  let nextTurn := otherTurn currentTurn
  if move.drop then
    some { board := boardSet currentBoard move.toSq.y move.toSq.x
                      (some ⟨move.piece, currentTurn, false⟩),
           hands := currentHands.add currentTurn move.piece (-1),
           turn := nextTurn }
  else
    match move.fromSq with
    | none => none
    | some f =>
      match boardGet currentBoard f.y f.x with
      | none => none
      | some piece =>
        let targetSquare := boardGet currentBoard move.toSq.y move.toSq.x
        let hands1 :=
          match targetSquare with
          | some tgt => currentHands.add currentTurn (getReversePieceType tgt.type) 1
          | none => currentHands
        let newType := if move.isPromotedMv then promotePiece piece.type else piece.type
        let moved : Piece :=
          { piece with type := newType, isPromotedPc := move.isPromotedMv || piece.isPromotedPc }
        let b1 := boardSet currentBoard move.toSq.y move.toSq.x (some moved)
        let b2 := boardSet b1 f.y f.x none
        some { board := b2, hands := hands1, turn := nextTurn }

/-- `isKingInCheck(board, targetTurn)`: row-major search for the king,
then a row-major search for an opposing piece that reaches it. -/
def isKingInCheck (board : Board) (targetTurn : Turn) : Bool :=
  let attackerTurn := otherTurn targetTurn
  let kingPos : Option Pos :=
    (List.range 9).findSome? fun y =>
      (List.range 9).findSome? fun x =>
        match boardGet board (Int.ofNat y) (Int.ofNat x) with
        | some p =>
          if p.type = .King ∧ p.owner = targetTurn then some ⟨Int.ofNat x, Int.ofNat y⟩
          else none
        | none => none
  match kingPos with
  | none => false
  | some kp =>
    (List.range 9).any fun y =>
      (List.range 9).any fun x =>
        match boardGet board (Int.ofNat y) (Int.ofNat x) with
        | some p =>
          if p.owner = attackerTurn then
            canPieceMoveTo board ⟨Int.ofNat x, Int.ofNat y⟩ kp p attackerTurn
          else false
        | none => false

/-- The "dead square" test of `isValidMove`: the destination forbids the
piece kind named in the move payload ever to move again.  Shared by the
non-promoting board-move gate and the drop gate, which repeat the same
condition in the source. -/
def deadSquare (currentTurn : Turn) (piece : PieceType) (toY : Int) : Bool :=
  if currentTurn = .sente then
    decide (((piece = .Pawn ∨ piece = .Lance) ∧ toY = 0) ∨ (piece = .Knight ∧ toY ≤ 1))
  else
    decide (((piece = .Pawn ∨ piece = .Lance) ∧ toY = 8) ∨ (piece = .Knight ∧ 7 ≤ toY))

/-- The truthy test `targetPiece && targetPiece.owner === currentTurn`. -/
def ownedBy (p : Option Piece) (t : Turn) : Bool :=
  match p with
  | some tp => decide (tp.owner = t)
  | none => false

/-- `isValidMove(board, hands, currentTurn, move)` of `gameUtils.js`
(identical to the later iteration's validator called with
`checkUchiFuzume = false`). -/
def isValidMove (board : Board) (hands : Hands) (currentTurn : Turn) (move : Move) : Bool :=
  if move.toSq.x < 0 ∨ 8 < move.toSq.x ∨ move.toSq.y < 0 ∨ 8 < move.toSq.y then false
  else
    let targetPiece := boardGet board move.toSq.y move.toSq.x
    if ownedBy targetPiece currentTurn then false
    else if ¬move.drop ∧ ¬move.isPromotedMv ∧ deadSquare currentTurn move.piece move.toSq.y then
      false
    else
      let isMoveOk : Bool :=
        if move.drop then
          if targetPiece ≠ none then false
          else if (hands.get currentTurn).get move.piece ≤ 0 then false
          else if move.piece = .Pawn ∧
              (List.range 9).any (fun y =>
                match boardGet board (Int.ofNat y) move.toSq.x with
                | some p =>
                  decide (p.owner = currentTurn ∧ p.type = .Pawn ∧ p.isPromotedPc = false)
                | none => false) then false
          else if deadSquare currentTurn move.piece move.toSq.y then false
          else true
        else
          match move.fromSq with
          | none => false
          | some f =>
            match boardGet board f.y f.x with
            | none => false
            | some movingPiece =>
              if movingPiece.owner ≠ currentTurn then false
              else canPieceMoveTo board f move.toSq movingPiece currentTurn
      if !isMoveOk then false
      else
        match applyMove? board hands move currentTurn with
        | none => false
        | some nextState => !isKingInCheck nextState.board currentTurn

/-- `Object.keys(EMPTY_HAND)` in insertion order (the loop order of the
hand-drop part of `hasLegalMoves`). -/
def handKeys : List PieceType :=
  [.Pawn, .Lance, .Knight, .Silver, .Gold, .Bishop, .Rook, .King,
   .PromotedPawn, .PromotedLance, .PromotedKnight, .PromotedSilver, .Horse, .Dragon]

/-- `hasLegalMoves(board, hands, turn)` of the later server iteration.
Its recursive `isValidMove(..., false)` calls coincide with the
`gameUtils.js` validator `isValidMove` embedded above. -/
def hasLegalMoves (board : Board) (hands : Hands) (turn : Turn) : Bool :=
  ((List.range 9).any fun y =>
    (List.range 9).any fun x =>
      match boardGet board (Int.ofNat y) (Int.ofNat x) with
      | some p =>
        if p.owner = turn then
          (List.range 9).any fun ty =>
            (List.range 9).any fun tx =>
              if ownedBy (boardGet board (Int.ofNat ty) (Int.ofNat tx)) turn then false
              else if ¬canPieceMoveTo board ⟨Int.ofNat x, Int.ofNat y⟩
                  ⟨Int.ofNat tx, Int.ofNat ty⟩ p turn then false
              else
                let mv : Move :=
                  ⟨some ⟨Int.ofNat x, Int.ofNat y⟩, ⟨Int.ofNat tx, Int.ofNat ty⟩,
                   p.type, false, false⟩
                if isValidMove board hands turn mv then true
                else
                  if p.type ∈ [PieceType.Pawn, .Lance, .Knight, .Silver, .Bishop, .Rook] then
                    if (if turn = .sente then y ≤ 2 ∨ ty ≤ 2 else 6 ≤ y ∨ 6 ≤ ty) then
                      isValidMove board hands turn { mv with isPromotedMv := true }
                    else false
                  else false
        else false
      | none => false) ||
  (handKeys.any fun k =>
    if 0 < (hands.get turn).get k then
      (List.range 9).any fun ty =>
        (List.range 9).any fun tx =>
          if boardGet board (Int.ofNat ty) (Int.ofNat tx) ≠ none then false
          else isValidMove board hands turn
                 ⟨none, ⟨Int.ofNat tx, Int.ofNat ty⟩, k, true, false⟩
    else false)

/-- `isValidMove(board, hands, currentTurn, move, checkUchiFuzume)` of the
later server iteration: the `gameUtils.js` validator plus the
drop-pawn-mate (uchi-fu-zume) rejection, which recurses through
`hasLegalMoves` with the rule disabled. -/
def isValidMoveFull (board : Board) (hands : Hands) (currentTurn : Turn) (move : Move)
    (checkUchiFuzume : Bool) : Bool :=
  if move.toSq.x < 0 ∨ 8 < move.toSq.x ∨ move.toSq.y < 0 ∨ 8 < move.toSq.y then false
  else
    let targetPiece := boardGet board move.toSq.y move.toSq.x
    if ownedBy targetPiece currentTurn then false
    else if ¬move.drop ∧ ¬move.isPromotedMv ∧ deadSquare currentTurn move.piece move.toSq.y then
      false
    else
      let isMoveOk : Bool :=
        if move.drop then
          if targetPiece ≠ none then false
          else if (hands.get currentTurn).get move.piece ≤ 0 then false
          else if move.piece = .Pawn ∧
              (List.range 9).any (fun y =>
                match boardGet board (Int.ofNat y) move.toSq.x with
                | some p =>
                  decide (p.owner = currentTurn ∧ p.type = .Pawn ∧ p.isPromotedPc = false)
                | none => false) then false
          else if deadSquare currentTurn move.piece move.toSq.y then false
          else true
        else
          match move.fromSq with
          | none => false
          | some f =>
            match boardGet board f.y f.x with
            | none => false
            | some movingPiece =>
              if movingPiece.owner ≠ currentTurn then false
              else canPieceMoveTo board f move.toSq movingPiece currentTurn
      if !isMoveOk then false
      else
        match applyMove? board hands move currentTurn with
        | none => false
        | some nextState =>
          if isKingInCheck nextState.board currentTurn then false
          else if checkUchiFuzume ∧ move.drop ∧ move.piece = .Pawn then
            let nextTurn := otherTurn currentTurn
            if isKingInCheck nextState.board nextTurn then
              if ¬hasLegalMoves nextState.board nextState.hands nextTurn then false
              else true
            else true
          else true

/-- `isCheckmate(board, hands, turn)`. -/
def isCheckmate (board : Board) (hands : Hands) (turn : Turn) : Bool :=
  isKingInCheck board turn && !hasLegalMoves board hands turn

/-- `SFEN_MAP`. -/
def sfenMap : PieceType → String
  | .Pawn => "p"
  | .Lance => "l"
  | .Knight => "n"
  | .Silver => "s"
  | .Gold => "g"
  | .Bishop => "b"
  | .Rook => "r"
  | .King => "k"
  | .PromotedPawn => "+p"
  | .PromotedLance => "+l"
  | .PromotedKnight => "+n"
  | .PromotedSilver => "+s"
  | .Horse => "+b"
  | .Dragon => "+r"

/-- `SFEN_MAP[type].toUpperCase()`, tabulated. -/
def sfenMapUpper : PieceType → String
  | .Pawn => "P"
  | .Lance => "L"
  | .Knight => "N"
  | .Silver => "S"
  | .Gold => "G"
  | .Bishop => "B"
  | .Rook => "R"
  | .King => "K"
  | .PromotedPawn => "+P"
  | .PromotedLance => "+L"
  | .PromotedKnight => "+N"
  | .PromotedSilver => "+S"
  | .Horse => "+B"
  | .Dragon => "+R"

def turnName : Turn → String
  | .sente => "sente"
  | .gote => "gote"

/-- The JS property name of each `EMPTY_HAND` key. -/
def pieceKeyName : PieceType → String
  | .Pawn => "Pawn"
  | .Lance => "Lance"
  | .Knight => "Knight"
  | .Silver => "Silver"
  | .Gold => "Gold"
  | .Bishop => "Bishop"
  | .Rook => "Rook"
  | .King => "King"
  | .PromotedPawn => "PromotedPawn"
  | .PromotedLance => "PromotedLance"
  | .PromotedKnight => "PromotedKnight"
  | .PromotedSilver => "PromotedSilver"
  | .Horse => "Horse"
  | .Dragon => "Dragon"

/-- `Object.keys(hand).sort()`: the fourteen key names in JS
lexicographic order. -/
def sortedHandKeys : List PieceType :=
  [.Bishop, .Dragon, .Gold, .Horse, .King, .Knight, .Lance, .Pawn,
   .PromotedKnight, .PromotedLance, .PromotedPawn, .PromotedSilver, .Rook, .Silver]

/-- The `handStr` helper of `generateSFEN`. -/
def handStr (h : Hand) : String :=
  (sortedHandKeys.map fun k =>
    if 0 < h.get k then pieceKeyName k ++ ":" ++ toString (h.get k) else "").foldl
    (fun a s => a ++ s) ""

/-- One rank of the SFEN board encoding: pieces as letters (uppercase for
sente), runs of empty squares compressed to their length. -/
def sfenRow (board : Board) (y : Nat) : String :=
  let r := (List.range 9).foldl
    (fun (acc : String × Nat) x =>
      match boardGet board (Int.ofNat y) (Int.ofNat x) with
      | none => (acc.1, acc.2 + 1)
      | some p =>
        let acc1 := if 0 < acc.2 then acc.1 ++ toString acc.2 else acc.1
        (acc1 ++ (if p.owner = .sente then sfenMapUpper p.type else sfenMap p.type), 0))
    ("", 0)
  if 0 < r.2 then r.1 ++ toString r.2 else r.1

/-- `generateSFEN(board, turn, hands)`. -/
def generateSFEN (board : Board) (turn : Turn) (hands : Hands) : String :=
  let boardStr := (List.range 9).foldl
    (fun acc y => acc ++ sfenRow board y ++ (if y < 8 then "/" else "")) ""
  boardStr ++ " " ++ turnName turn ++ " S:" ++ handStr hands.sente ++ " G:" ++ handStr hands.gote

/-! ## The room state machine (`index.js`)

The modelled room state keeps every persistent field of the JS room
object that the game logic reads or writes (socket bookkeeping —
`players`, `userIds`, `playerNames` — is connection-level data with no
influence on the game state and is not modelled).  `timerOn` models
whether `timerInterval` currently holds a scheduled timer. -/

inductive Status where
  | waiting
  | playing
  | finished
  | analysis
deriving DecidableEq

structure SidePair (α : Type) where
  sente : α
  gote : α
deriving DecidableEq

def SidePair.get (p : SidePair α) : Turn → α
  | .sente => p.sente
  | .gote => p.gote

def SidePair.set (p : SidePair α) (t : Turn) (v : α) : SidePair α :=
  match t with
  | .sente => { p with sente := v }
  | .gote => { p with gote := v }

structure Settings where
  initial : Int
  byoyomi : Int
  randomTurn : Bool
  fixTurn : Bool
deriving DecidableEq

/-- A history entry `moveWithInfo = {...move, isCheck, time: {now, total}}`.
For a move recorded by the analysis branch (which pushes the raw client
move) the extra fields are absent in JS; reading them yields `undefined`,
which every use site treats as `false` / `0`, the values `rawAMove`
assigns. -/
structure AMove where
  mv : Move
  isCheck : Bool
  timeNow : Int
  timeTotal : Int
deriving DecidableEq

def rawAMove (m : Move) : AMove := ⟨m, false, 0, 0⟩

def dummyAMove : AMove := rawAMove ⟨none, ⟨0, 0⟩, .Pawn, false, false⟩

structure Room where
  history : List AMove
  board : Board
  hands : Hands
  sfenHistory : List (String × Nat)
  status : Status
  winner : Option Turn
  ready : SidePair Bool
  rematchRequests : SidePair Bool
  settings : Settings
  times : SidePair Int
  currentByoyomi : SidePair Int
  lastMoveTimestamp : Int
  totalConsumedTimes : SidePair Int
  gameCount : Int
  gameStartTime : Int
  timerOn : Bool
deriving DecidableEq

/-- `game_finished` reasons. -/
inductive EndReason where
  | resign
  | timeout
  | sennichite
  | illegalSennichite
  | checkmate
deriving DecidableEq

/-- `room.sfenHistory[k] || 0`. -/
def sfenGet (l : List (String × Nat)) (k : String) : Nat :=
  match l.find? (fun p => p.1 == k) with
  | some p => p.2
  | none => 0

/-- `room.sfenHistory[k] = v`. -/
def sfenSet : List (String × Nat) → String → Nat → List (String × Nat)
  | [], k, v => [(k, v)]
  | p :: rest, k, v => if p.1 = k then (k, v) :: rest else p :: sfenSet rest k v

/-- `room.history.length % 2 === 0 ? 'sente' : 'gote'`. -/
def turnOf (h : List AMove) : Turn :=
  if h.length % 2 = 0 then .sente else .gote

def initialRState : MoveRes := ⟨createInitialBoard, emptyHands, .sente⟩

/-- Left-to-right replay of a history by `applyMove` from a given state;
`none` models the `TypeError` the JS replay loops raise on a malformed
recorded move. -/
def replayFrom : MoveRes → List AMove → Option MoveRes
  | s, [] => some s
  | s, m :: rest =>
    match applyMove? s.board s.hands m.mv s.turn with
    | none => none
    | some s2 => replayFrom s2 rest

/-- Replay from the fixed initial position (initial board, empty hands,
sente to move). -/
def replayS (h : List AMove) : Option MoveRes :=
  replayFrom initialRState h

def initialSfen : String := generateSFEN createInitialBoard .sente emptyHands

/-- `handleGameEnd`'s effect on the room state (stop timer, mark
finished, record winner); the emitted reason is returned separately by
`moveHandler`. -/
def handleGameEnd (r : Room) (w : Option Turn) : Room :=
  { r with timerOn := false, status := .finished, winner := w }

/-- The body of `toggle_ready` once both seats are ready: reset the game
state, enter `playing`, start the clock.  (The possible seat swap
rearranges socket bookkeeping only.) -/
def startGame (r : Room) (now : Int) : Room :=
  { r with
    timerOn := true,
    history := [],
    board := createInitialBoard,
    hands := emptyHands,
    sfenHistory := sfenSet [] initialSfen 1,
    status := .playing,
    winner := none,
    ready := ⟨false, false⟩,
    rematchRequests := ⟨false, false⟩,
    times := ⟨r.settings.initial, r.settings.initial⟩,
    currentByoyomi := ⟨r.settings.byoyomi, r.settings.byoyomi⟩,
    lastMoveTimestamp := now,
    totalConsumedTimes := ⟨0, 0⟩,
    gameCount := r.gameCount + 1,
    gameStartTime := now }

/-- The `toggle_ready` handler. -/
def toggleReadyHandler (r : Room) (role : Turn) (now : Int) : Room :=
  let r1 := { r with ready := r.ready.set role (!(r.ready.get role)) }
  if r1.ready.sente && r1.ready.gote then startGame r1 now else r1

/-- `array.slice(0, bi)` (a negative `bi` counts from the end). -/
def jsSlice0 (l : List AMove) (bi : Int) : List AMove :=
  if 0 ≤ bi then l.take bi.toNat else l.take ((l.length + bi).toNat)

/-- The analysis / finished branch of the `move` handler: optionally
truncate to `branchIndex` and rebuild board and hands by replay, then
push the raw client move onto the history without applying it.  If the
replay of a malformed recorded move throws, the history has already
been truncated but neither the board nor the push happen. -/
def moveAnalysisBranch (r : Room) (m : Move) (branchIndex : Option Int) : Room :=
  match branchIndex with
  | some bi =>
    if bi < (r.history.length : Int) then
      let hist1 := jsSlice0 r.history bi
      match replayS hist1 with
      | some s =>
        { r with history := hist1 ++ [rawAMove m], board := s.board, hands := s.hands }
      | none => { r with history := hist1 }
    else { r with history := r.history ++ [rawAMove m] }
  | none => { r with history := r.history ++ [rawAMove m] }

/-- The index collection of the repetition block: replay the history
from the initial position and record every index whose resulting
position fingerprint equals `target` (the current fingerprint). -/
def occScan (target : String) : List AMove → MoveRes → Nat → Option (List Int)
  | [], _, _ => some []
  | m :: rest, s, idx =>
    match applyMove? s.board s.hands m.mv s.turn with
    | none => none
    | some s2 =>
      match occScan target rest s2 (idx + 1) with
      | none => none
      | some tl =>
        some ((if generateSFEN s2.board s2.turn s2.hands = target then [(idx : Int)] else []) ++ tl)

/-- `indices` of the repetition block, including the initial position as
index `-1` when its fingerprint matches. -/
def repIndices (hist : List AMove) (target : String) : Option (List Int) :=
  match occScan target hist initialRState 0 with
  | none => none
  | some l => some ((if initialSfen = target then [(-1 : Int)] else []) ++ l)

/-- The integer interval `[a, b]` as a list (the `for (let i = a; i <= b; i++)` range). -/
def intRange (a b : Int) : List Int :=
  (List.range (b + 1 - a).toNat).map (fun i => a + (i : Int))

/-- One iteration of the flag loop of the repetition classification; the
state is `(senteContinuousCheck, goteContinuousCheck, hasSenteMove, hasGoteMove)`. -/
def repFlagsStep (hist : List AMove) (st : Bool × Bool × Bool × Bool) (i : Int) :
    Bool × Bool × Bool × Bool :=
  let m := hist.getD i.toNat dummyAMove
  if i % 2 = 0 then (st.1 && m.isCheck, st.2.1, true, st.2.2.2)
  else (st.1, st.2.1 && m.isCheck, st.2.2.1, true)

/-- The classification of a detected repetition.  When fewer than two
occurrence indices exist, `indices[length-2]` is `undefined` in JS, the
loop bound `prevIdx + 1` is `NaN` and the loop body never runs, leaving
all flags at their defaults (sennichite draw); the `< 2` guard models
this. -/
def classifyRep (hist : List AMove) (idxs : List Int) : Option Turn × EndReason :=
  if idxs.length < 2 then (none, .sennichite)
  else
    let lastIdx := idxs.getD (idxs.length - 1) 0
    let prevIdx := idxs.getD (idxs.length - 2) 0
    let fl := (intRange (prevIdx + 1) lastIdx).foldl (repFlagsStep hist) (true, true, false, false)
    if fl.2.2.1 ∧ fl.1 then (some .gote, .illegalSennichite)
    else if fl.2.2.2 ∧ fl.2.1 then (some .sente, .illegalSennichite)
    else (none, .sennichite)

/-- The result of a `move` event: the new room plus the
`game_finished (winner, reason)` event it emits, if any. -/
structure MoveOut where
  room : Room
  gameEnd : Option (Option Turn × EndReason)
deriving DecidableEq

/-- The `move` handler of `index.js`. -/
def moveHandler (r : Room) (m : Move) (branchIndex : Option Int) (now : Int) : MoveOut :=
  if r.status = .analysis ∨ r.status = .finished then
    ⟨moveAnalysisBranch r m branchIndex, none⟩
  else
    let currentTurn := turnOf r.history
    if ¬isValidMove r.board r.hands currentTurn m then ⟨r, none⟩
    else
      let r0 := { r with timerOn := false }
      if r0.status = .playing then
        let spentTimeMs := now - r0.lastMoveTimestamp
        let spentSeconds := Int.fdiv spentTimeMs 1000
        let times1 :=
          if (0 : Int) < r0.times.get currentTurn then
            r0.times.set currentTurn (max 0 (r0.times.get currentTurn - spentSeconds))
          else r0.times
        let total1 := r0.totalConsumedTimes.set currentTurn
          (r0.totalConsumedTimes.get currentTurn + spentTimeMs)
        let r1 := { r0 with
          times := times1
          totalConsumedTimes := total1
          lastMoveTimestamp := now }
        match applyMove? r1.board r1.hands m currentTurn with
        | none => ⟨r1, none⟩
        | some res =>
          let nextTurn := otherTurn currentTurn
          let isCheck := isKingInCheck res.board nextTurn
          let mwi : AMove := ⟨m, isCheck, spentSeconds, Int.fdiv (total1.get currentTurn) 1000⟩
          let r2 := { r1 with
            board := res.board
            hands := res.hands
            currentByoyomi := r1.currentByoyomi.set currentTurn r1.settings.byoyomi
            history := r1.history ++ [mwi] }
          if isCheckmate r2.board r2.hands nextTurn then
            ⟨handleGameEnd r2 (some currentTurn), some (some currentTurn, .checkmate)⟩
          else
            let sfen := generateSFEN r2.board nextTurn r2.hands
            let newCount := sfenGet r2.sfenHistory sfen + 1
            let r3 := { r2 with sfenHistory := sfenSet r2.sfenHistory sfen newCount }
            if 4 ≤ newCount then
              let r4 := { r3 with timerOn := false, status := .finished }
              match repIndices r4.history sfen with
              | none => ⟨r4, none⟩
              | some idxs =>
                let wr := classifyRep r4.history idxs
                ⟨handleGameEnd r4 wr.1, some wr⟩
            else ⟨{ r3 with timerOn := true }, none⟩
      else ⟨r0, none⟩

/-- The replay loop of the `undo` handler, which also rebuilds
`sfenHistory` move by move.  On a malformed recorded move the JS loop
throws with `sfenHistory` partially rebuilt and board and hands not yet
reassigned. -/
def undoReplay : List AMove → MoveRes → List (String × Nat) →
    List (String × Nat) × Option MoveRes
  | [], s, acc => (acc, some s)
  | m :: rest, s, acc =>
    match applyMove? s.board s.hands m.mv s.turn with
    | none => (acc, none)
    | some s2 =>
      let sfen := generateSFEN s2.board s2.turn s2.hands
      undoReplay rest s2 (sfenSet acc sfen (sfenGet acc sfen + 1))

/-- The `undo` handler. -/
def undoHandler (r : Room) : Room :=
  if r.status ≠ .playing ∧ 0 < r.history.length then
    let hist1 := r.history.dropLast
    let res := undoReplay hist1 initialRState (sfenSet [] initialSfen 1)
    match res.2 with
    | some s =>
      { r with history := hist1, sfenHistory := res.1, board := s.board, hands := s.hands }
    | none => { r with history := hist1, sfenHistory := res.1 }
  else r

/-- The `reset` handler (note: no status gate in the source). -/
def resetHandler (r : Room) : Room :=
  { r with
    timerOn := false,
    history := [],
    board := createInitialBoard,
    hands := emptyHands,
    sfenHistory := [],
    winner := none,
    ready := ⟨false, false⟩,
    rematchRequests := ⟨false, false⟩,
    times := ⟨r.settings.initial, r.settings.initial⟩,
    gameCount := 0 }

/-- The `rematch` handler. -/
def rematchHandler (r : Room) (role : Turn) (now : Int) : Room :=
  let r1 := { r with rematchRequests := r.rematchRequests.set role true }
  if r1.rematchRequests.sente && r1.rematchRequests.gote then
    { r1 with
      timerOn := false,
      history := [],
      board := createInitialBoard,
      hands := emptyHands,
      sfenHistory := [],
      status := .waiting,
      winner := none,
      ready := ⟨false, false⟩,
      rematchRequests := ⟨false, false⟩,
      times := ⟨r1.settings.initial, r1.settings.initial⟩,
      currentByoyomi := ⟨r1.settings.byoyomi, r1.settings.byoyomi⟩,
      lastMoveTimestamp := now,
      totalConsumedTimes := ⟨0, 0⟩ }
  else r1

/-- The `game_resign` handler. -/
def resignHandler (r : Room) (loser : Turn) : Room :=
  handleGameEnd r (some (otherTurn loser))

/-- One scheduled tick of `startTimer`'s interval (only the timeout
transition mutates room state; the displayed times are derived values).
The tick's `turn` closure was captured when the timer was started, which
in every reachable `playing` state equals the parity turn because every
history change while playing restarts the timer. -/
def tickHandler (r : Room) (now : Int) : Room :=
  if ¬r.timerOn then r
  else
    let turn := turnOf r.history
    let elapsedSeconds := Int.fdiv (now - r.lastMoveTimestamp) 1000
    let currentRemaining := r.times.get turn - elapsedSeconds
    if (0 : Int) < currentRemaining then r
    else
      let overTime := -currentRemaining
      let remainingByoyomi := r.settings.byoyomi - overTime
      if remainingByoyomi ≤ -1 then handleGameEnd r (some (otherTurn turn)) else r

/-- `updateRoomTime(room)` of the later server iteration: commit the
elapsed wall-clock time into the mover's clocks. -/
def updateRoomTime (r : Room) (now : Int) : Room :=
  if r.status ≠ .playing then r
  else
    let turn := turnOf r.history
    let elapsedTotalMs := now - r.lastMoveTimestamp
    let elapsedSeconds := Int.fdiv elapsedTotalMs 1000
    let consumed2 := r.totalConsumedTimes.set turn (r.totalConsumedTimes.get turn + elapsedTotalMs)
    let r1 := { r with totalConsumedTimes := consumed2 }
    let r2 :=
      if (0 : Int) < r1.times.get turn then
        let remaining := r1.times.get turn - elapsedSeconds
        if (0 : Int) < remaining then { r1 with times := r1.times.set turn remaining }
        else
          { r1 with
            times := r1.times.set turn 0
            currentByoyomi := r1.currentByoyomi.set turn (max 0 (r1.settings.byoyomi - (-remaining))) }
      else
        { r1 with
          currentByoyomi := r1.currentByoyomi.set turn (max 0 (r1.settings.byoyomi - elapsedSeconds)) }
    { r2 with lastMoveTimestamp := now }

/-- `stopTimer(room, save)` of the later iteration, as triggered by a
player disconnect during a game: commit the elapsed time, cancel the
timer. -/
def pauseHandler (r : Room) (now : Int) : Room :=
  if r.timerOn then { updateRoomTime r now with timerOn := false } else r

/-- The `update_settings` handler. -/
def updateSettingsHandler (r : Room) (s : Settings) : Room :=
  if r.status = .waiting then { r with settings := s } else r

/-- The inbound events that mutate the modelled room state. -/
inductive GEvent where
  | moveEv (m : Move) (branchIndex : Option Int) (now : Int)
  | toggleReadyEv (role : Turn) (now : Int)
  | resignEv (loser : Turn)
  | undoEv
  | resetEv
  | rematchEv (role : Turn) (now : Int)
  | tickEv (now : Int)
  | pauseEv (now : Int)
  | updateSettingsEv (s : Settings)
deriving DecidableEq

def stepRoom (r : Room) : GEvent → Room
  | .moveEv m bi now => (moveHandler r m bi now).room
  | .toggleReadyEv role now => toggleReadyHandler r role now
  | .resignEv loser => resignHandler r loser
  | .undoEv => undoHandler r
  | .resetEv => resetHandler r
  | .rematchEv role now => rematchHandler r role now
  | .tickEv now => tickHandler r now
  | .pauseEv now => pauseHandler r now
  | .updateSettingsEv s => updateSettingsHandler r s

def runRoom (r : Room) (es : List GEvent) : Room :=
  es.foldl stepRoom r

/-- The room created by `join_room` for an unknown room id. -/
def freshRoom (analysisMode : Bool) (now : Int) : Room :=
  { history := []
    board := createInitialBoard
    hands := emptyHands
    sfenHistory := []
    status := if analysisMode then .analysis else .waiting
    winner := none
    ready := ⟨false, false⟩
    rematchRequests := ⟨false, false⟩
    settings := ⟨600, 30, false, false⟩
    times := ⟨600, 600⟩
    currentByoyomi := ⟨30, 30⟩
    lastMoveTimestamp := now
    totalConsumedTimes := ⟨0, 0⟩
    gameCount := 0
    gameStartTime := 0
    timerOn := false }

/-- Replay determinism statement for a room: its history, replayed from
the fixed initial position, reproduces its board and hands (the
side-to-move component is then forced by the history length). -/
abbrev ReplayInv (r : Room) : Prop :=
  replayS r.history = some ⟨r.board, r.hands, turnOf r.history⟩

/-- Events that belong to an in-progress game: all events except the two
game-boundary completions (`toggle_ready` completing readiness starts a
new game, `rematch` completing both requests resets for one), which
reinitialize the clock state for the next game rather than act within
the current one. -/
def inGameEv : GEvent → Bool
  | .toggleReadyEv _ _ => false
  | .rematchEv _ _ => false
  | _ => true

/-- One event's timestamp is no earlier than the room's
`lastMoveTimestamp` (wall-clock reads are monotone). -/
def evTimeOk (r : Room) : GEvent → Bool
  | .moveEv _ _ now => decide (r.lastMoveTimestamp ≤ now)
  | .pauseEv now => decide (r.lastMoveTimestamp ≤ now)
  | .tickEv now => decide (r.lastMoveTimestamp ≤ now)
  | _ => true

/-- The wall clock is monotone along a run: each timestamped event
arrives no earlier than the room's `lastMoveTimestamp` at that point. -/
def timedOk (r : Room) : List GEvent → Bool
  | [] => true
  | e :: es => evTimeOk r e && timedOk (stepRoom r e) es

/-! ## Heap-level model of `applyMove` (for its frame properties)

`applyMove` mutates freshly copied objects and leaves its arguments
untouched.  To state this, the mutable JS objects involved — the piece
objects on the board and the two per-side hand objects — are given
explicit addresses in a store.  A heap board holds piece addresses, a
heap hand pair holds two hand-object addresses, and allocation hands
out consecutive fresh addresses.  (The array spines created by
`currentBoard.map(...)` are likewise fresh; the model tracks the
mutable leaf objects, which are the cells the two results could
share.) -/

structure JSHeap where
  pieceAt : Nat → Piece
  handAt : Nat → Hand
  nextP : Nat
  nextH : Nat

def BoardH : Type := List (List (Option Nat))

structure HandsH where
  sente : Nat
  gote : Nat

def HandsH.get (h : HandsH) : Turn → Nat
  | .sente => h.sente
  | .gote => h.gote

/-- Allocate a fresh piece object. -/
def allocPiece (σ : JSHeap) (p : Piece) : JSHeap × Nat :=
  ({ σ with pieceAt := fun a => if a = σ.nextP then p else σ.pieceAt a, nextP := σ.nextP + 1 },
   σ.nextP)

/-- Allocate a fresh hand object. -/
def allocHand (σ : JSHeap) (h : Hand) : JSHeap × Nat :=
  ({ σ with handAt := fun a => if a = σ.nextH then h else σ.handAt a, nextH := σ.nextH + 1 },
   σ.nextH)

/-- In-place mutation of a hand object (`newHands[t][k] += d`). -/
def handMutate (σ : JSHeap) (addr : Nat) (k : PieceType) (d : Int) : JSHeap :=
  { σ with handAt := fun a => if a = addr then (σ.handAt a).add k d else σ.handAt a }

/-- `row.map(p => p ? {...p} : null)`: copy one row left to right,
allocating a fresh piece object per occupied square. -/
def copyRowH (σ : JSHeap) : List (Option Nat) → JSHeap × List (Option Nat)
  | [] => (σ, [])
  | none :: rest =>
    let r := copyRowH σ rest
    (r.1, none :: r.2)
  | some a :: rest =>
    let p := allocPiece σ (σ.pieceAt a)
    let r := copyRowH p.1 rest
    (r.1, some p.2 :: r.2)

/-- `currentBoard.map(row => row.map(p => p ? {...p} : null))`. -/
def copyBoardH (σ : JSHeap) : BoardH → JSHeap × BoardH
  | [] => (σ, [])
  | row :: rest =>
    let r := copyRowH σ row
    let rr := copyBoardH r.1 rest
    (rr.1, r.2 :: rr.2)

def boardHGet (b : BoardH) (y x : Int) : Option Nat :=
  if 0 ≤ y ∧ y ≤ 8 ∧ 0 ≤ x ∧ x ≤ 8 then
    (List.getD b y.toNat []).getD x.toNat none
  else
    none

def boardHSet (b : BoardH) (y x : Int) (v : Option Nat) : BoardH :=
  if 0 ≤ y ∧ y ≤ 8 ∧ 0 ≤ x ∧ x ≤ 8 then
    List.set b y.toNat (List.set (List.getD b y.toNat []) x.toNat v)
  else
    b

/-- Heap-level `applyMove`, mirroring the source step by step: copy the
board, copy both hands, then perform the drop or the board move on the
fresh objects.  `none` models the `TypeError` on an empty `from`
square. -/
def applyMoveH (σ : JSHeap) (currentBoard : BoardH) (currentHands : HandsH) (move : Move)
    (currentTurn : Turn) : Option (JSHeap × BoardH × HandsH) :=
  let c := copyBoardH σ currentBoard
  let s1 := allocHand c.1 (c.1.handAt currentHands.sente)
  let s2 := allocHand s1.1 (s1.1.handAt currentHands.gote)
  let newBoard := c.2
  let newHands : HandsH := ⟨s1.2, s2.2⟩
  if move.drop then
    let p := allocPiece s2.1 ⟨move.piece, currentTurn, false⟩
    let σ2 := handMutate p.1 (newHands.get currentTurn) move.piece (-1)
    some (σ2, boardHSet newBoard move.toSq.y move.toSq.x (some p.2), newHands)
  else
    match move.fromSq with
    | none => none
    | some f =>
      match boardHGet newBoard f.y f.x with
      | none => none
      | some pAddr =>
        let piece := (s2.1).pieceAt pAddr
        let target := boardHGet newBoard move.toSq.y move.toSq.x
        let σ2 :=
          match target with
          | some tAddr =>
            handMutate s2.1 (newHands.get currentTurn)
              (getReversePieceType ((s2.1).pieceAt tAddr).type) 1
          | none => s2.1
        let newType := if move.isPromotedMv then promotePiece piece.type else piece.type
        let p := allocPiece σ2
          { piece with type := newType, isPromotedPc := move.isPromotedMv || piece.isPromotedPc }
        let b1 := boardHSet newBoard move.toSq.y move.toSq.x (some p.2)
        let b2 := boardHSet b1 f.y f.x none
        some (p.1, b2, newHands)

/-- The piece-object addresses reachable from a heap board. -/
def boardAddrs (b : BoardH) : List Nat :=
  b.flatMap (fun row => row.filterMap id)

/-- Well-formedness of the inputs: every reachable address was allocated
before the call. -/
def heapWF (σ : JSHeap) (b : BoardH) (h : HandsH) : Prop :=
  (∀ a ∈ boardAddrs b, a < σ.nextP) ∧ h.sente < σ.nextH ∧ h.gote < σ.nextH

instance (σ : JSHeap) (b : BoardH) (h : HandsH) : Decidable (heapWF σ b h) := by
  unfold heapWF
  exact instDecidableAnd

/-- The frame property of one `applyMove` call on well-formed inputs:
no object that existed before the call is modified (so the input board
and hands are unchanged), and every object reachable from the results is
freshly allocated — in particular the result board and hands share no
mutable cell with the input board and hands. -/
def applyMoveFrame (σ : JSHeap) (b : BoardH) (h : HandsH) :
    Option (JSHeap × BoardH × HandsH) → Prop
  | none => True
  | some (σ2, b2, h2) =>
    (∀ a < σ.nextP, σ2.pieceAt a = σ.pieceAt a) ∧
    (∀ a < σ.nextH, σ2.handAt a = σ.handAt a) ∧
    (∀ a ∈ boardAddrs b2, σ.nextP ≤ a ∧ a ∉ boardAddrs b) ∧
    (σ.nextH ≤ h2.sente ∧ h2.sente ≠ h.sente ∧ h2.sente ≠ h.gote) ∧
    (σ.nextH ≤ h2.gote ∧ h2.gote ≠ h.sente ∧ h2.gote ≠ h.gote)

/-- The eight non-promoted piece kinds. -/
def isBasicKind : PieceType → Bool
  | .Pawn | .Lance | .Knight | .Silver | .Gold | .Bishop | .Rook | .King => true
  | _ => false


/-- A position with an unpromoted sente Pawn on `(x=0, y=1)` and the two
kings; used to show the dead-square gate trusts the move payload. -/
def payloadBoard : Board :=
  emptyBoard |> place 4 0 .King .gote |> place 4 8 .King .sente |> place 0 1 .Pawn .sente

/-- The move that plays that Pawn to the last rank without promoting,
while naming `Gold` in its `piece` field. -/
def payloadMove : Move := ⟨some ⟨0, 1⟩, ⟨0, 0⟩, .Gold, false, false⟩

/-- A bare two-kings position (gote king on `(4,0)`, sente king on
`(4,8)`). -/
def kingsBoard : Board :=
  emptyBoard |> place 4 0 .King .gote |> place 4 8 .King .sente

/-- Sente holds one Pawn. -/
def onePawnHands : Hands := ⟨{ EMPTY_HAND with pawn := 1 }, EMPTY_HAND⟩

/-- The Pawn drop on `(4,1)`: it checks the gote king, which can simply
capture the Pawn. -/
def checkingDrop : Move := ⟨none, ⟨4, 1⟩, .Pawn, true, false⟩

/-- A room in the middle of a game (used to show `reset` is not gated
on the status). -/
def midGameRoom : Room :=
  { freshRoom false 0 with
    status := .playing
    gameCount := 1
    history := [rawAMove ⟨some ⟨6, 6⟩, ⟨6, 5⟩, .Pawn, false, false⟩] }

/-- An analysis-mode room right after one `move` event: the move sits in
the history but was never applied to the board. -/
def analysisPushedRoom : Room :=
  (moveHandler (freshRoom true 0) ⟨some ⟨6, 6⟩, ⟨6, 5⟩, .Pawn, false, false⟩ none 0).room

/-- A small concrete heap: one allocated piece object (address 0) and
two allocated hand objects (addresses 0 and 1). -/
def heapW : JSHeap :=
  { pieceAt := fun _ => ⟨.Pawn, .sente, false⟩, handAt := fun _ => EMPTY_HAND,
    nextP := 1, nextH := 2 }

/-- A heap board holding the single allocated piece at `(x=6, y=6)`. -/
def heapBoardW : BoardH :=
  boardHSet (List.replicate 9 (List.replicate 9 none)) 6 6 (some 0)

def heapHandsW : HandsH := ⟨0, 1⟩

/-- The annotated move `moveWithInfo` the playing branch of the `move`
handler appends to the history (spelled out for use in statements about
that branch). -/
def moveWithInfo (r : Room) (m : Move) (now : Int) (res : MoveRes) : AMove :=
  ⟨m, isKingInCheck res.board (otherTurn (turnOf r.history)),
   Int.fdiv (now - r.lastMoveTimestamp) 1000,
   Int.fdiv
     ((r.totalConsumedTimes.set (turnOf r.history)
       (r.totalConsumedTimes.get (turnOf r.history) + (now - r.lastMoveTimestamp))).get
       (turnOf r.history)) 1000⟩

/-- The repetition classification as the specification words it
(spec-side definition, compared against the embedded `classifyRep`):
over the block of history moves strictly after the previous occurrence
of the fingerprint (`indices[length-2]`, possibly `-1` for the initial
position) up to and including the current one (`indices[length-1]`),
sente moves are the even indices.  If every sente move in the block
gives check and the block contains a sente move, gote wins by
illegal repetition; symmetrically for gote; otherwise the repetition is
a draw with no winner. -/
def classifySpec (hist : List AMove) (idxs : List Int) : Option Turn × EndReason :=
  let blk := intRange (idxs.getD (idxs.length - 2) 0 + 1) (idxs.getD (idxs.length - 1) 0)
  if (∃ i ∈ blk, i % 2 = 0) ∧
      (∀ i ∈ blk, i % 2 = 0 → (hist.getD i.toNat dummyAMove).isCheck = true) then
    (some Turn.gote, EndReason.illegalSennichite)
  else if (∃ i ∈ blk, ¬i % 2 = 0) ∧
      (∀ i ∈ blk, ¬i % 2 = 0 → (hist.getD i.toNat dummyAMove).isCheck = true) then
    (some Turn.sente, EndReason.illegalSennichite)
  else (none, EndReason.sennichite)


def goldS1 : Move := ⟨some ⟨3, 8⟩, ⟨3, 7⟩, .Gold, false, false⟩

def goldS2 : Move := ⟨some ⟨3, 7⟩, ⟨3, 8⟩, .Gold, false, false⟩

def goldG1 : Move := ⟨some ⟨3, 0⟩, ⟨3, 1⟩, .Gold, false, false⟩

def goldG2 : Move := ⟨some ⟨3, 1⟩, ⟨3, 0⟩, .Gold, false, false⟩

/-- Three plies of a gold shuffle (sente gold out and back, gote gold
out); the fourth ply `goldG2` restores the initial position. -/
def goldHist : List AMove := [rawAMove goldS1, rawAMove goldG1, rawAMove goldS2]

/-- The initial board spelled out cell by cell (keeps the repetition
witness cheap to evaluate). -/
def initBoardLit : Board :=
  [[some ⟨.Lance, .gote, false⟩,
    some ⟨.Knight, .gote, false⟩,
    some ⟨.Silver, .gote, false⟩,
    some ⟨.Gold, .gote, false⟩,
    some ⟨.King, .gote, false⟩,
    some ⟨.Gold, .gote, false⟩,
    some ⟨.Silver, .gote, false⟩,
    some ⟨.Knight, .gote, false⟩,
    some ⟨.Lance, .gote, false⟩],
   [none,
    some ⟨.Rook, .gote, false⟩,
    none,
    none,
    none,
    none,
    none,
    some ⟨.Bishop, .gote, false⟩,
    none],
   [some ⟨.Pawn, .gote, false⟩,
    some ⟨.Pawn, .gote, false⟩,
    some ⟨.Pawn, .gote, false⟩,
    some ⟨.Pawn, .gote, false⟩,
    some ⟨.Pawn, .gote, false⟩,
    some ⟨.Pawn, .gote, false⟩,
    some ⟨.Pawn, .gote, false⟩,
    some ⟨.Pawn, .gote, false⟩,
    some ⟨.Pawn, .gote, false⟩],
   [none,
    none,
    none,
    none,
    none,
    none,
    none,
    none,
    none],
   [none,
    none,
    none,
    none,
    none,
    none,
    none,
    none,
    none],
   [none,
    none,
    none,
    none,
    none,
    none,
    none,
    none,
    none],
   [some ⟨.Pawn, .sente, false⟩,
    some ⟨.Pawn, .sente, false⟩,
    some ⟨.Pawn, .sente, false⟩,
    some ⟨.Pawn, .sente, false⟩,
    some ⟨.Pawn, .sente, false⟩,
    some ⟨.Pawn, .sente, false⟩,
    some ⟨.Pawn, .sente, false⟩,
    some ⟨.Pawn, .sente, false⟩,
    some ⟨.Pawn, .sente, false⟩],
   [none,
    some ⟨.Bishop, .sente, false⟩,
    none,
    none,
    none,
    none,
    none,
    some ⟨.Rook, .sente, false⟩,
    none],
   [some ⟨.Lance, .sente, false⟩,
    some ⟨.Knight, .sente, false⟩,
    some ⟨.Silver, .sente, false⟩,
    some ⟨.Gold, .sente, false⟩,
    some ⟨.King, .sente, false⟩,
    some ⟨.Gold, .sente, false⟩,
    some ⟨.Silver, .sente, false⟩,
    some ⟨.Knight, .sente, false⟩,
    some ⟨.Lance, .sente, false⟩]]

/-- The board after `goldHist`: the initial position with the gote gold
moved from (3,0) to (3,1). -/
def goldBoard3Lit : Board :=
  [[some ⟨.Lance, .gote, false⟩,
    some ⟨.Knight, .gote, false⟩,
    some ⟨.Silver, .gote, false⟩,
    none,
    some ⟨.King, .gote, false⟩,
    some ⟨.Gold, .gote, false⟩,
    some ⟨.Silver, .gote, false⟩,
    some ⟨.Knight, .gote, false⟩,
    some ⟨.Lance, .gote, false⟩],
   [none,
    some ⟨.Rook, .gote, false⟩,
    none,
    some ⟨.Gold, .gote, false⟩,
    none,
    none,
    none,
    some ⟨.Bishop, .gote, false⟩,
    none],
   [some ⟨.Pawn, .gote, false⟩,
    some ⟨.Pawn, .gote, false⟩,
    some ⟨.Pawn, .gote, false⟩,
    some ⟨.Pawn, .gote, false⟩,
    some ⟨.Pawn, .gote, false⟩,
    some ⟨.Pawn, .gote, false⟩,
    some ⟨.Pawn, .gote, false⟩,
    some ⟨.Pawn, .gote, false⟩,
    some ⟨.Pawn, .gote, false⟩],
   [none,
    none,
    none,
    none,
    none,
    none,
    none,
    none,
    none],
   [none,
    none,
    none,
    none,
    none,
    none,
    none,
    none,
    none],
   [none,
    none,
    none,
    none,
    none,
    none,
    none,
    none,
    none],
   [some ⟨.Pawn, .sente, false⟩,
    some ⟨.Pawn, .sente, false⟩,
    some ⟨.Pawn, .sente, false⟩,
    some ⟨.Pawn, .sente, false⟩,
    some ⟨.Pawn, .sente, false⟩,
    some ⟨.Pawn, .sente, false⟩,
    some ⟨.Pawn, .sente, false⟩,
    some ⟨.Pawn, .sente, false⟩,
    some ⟨.Pawn, .sente, false⟩],
   [none,
    some ⟨.Bishop, .sente, false⟩,
    none,
    none,
    none,
    none,
    none,
    some ⟨.Rook, .sente, false⟩,
    none],
   [some ⟨.Lance, .sente, false⟩,
    some ⟨.Knight, .sente, false⟩,
    some ⟨.Silver, .sente, false⟩,
    some ⟨.Gold, .sente, false⟩,
    some ⟨.King, .sente, false⟩,
    some ⟨.Gold, .sente, false⟩,
    some ⟨.Silver, .sente, false⟩,
    some ⟨.Knight, .sente, false⟩,
    some ⟨.Lance, .sente, false⟩]]

/-- A playing room three plies into the gold shuffle whose fingerprint
table already records three occurrences of the initial position, so
`goldG2` produces the fourth. -/
def goldRoomPre : Room :=
  { freshRoom false 1000 with
    status := .playing
    history := goldHist
    board := goldBoard3Lit
    hands := emptyHands
    sfenHistory := [(initialSfen, 3)] }

def goldRes : MoveRes := ⟨initBoardLit, emptyHands, .sente⟩

/-! ## Theorems -/

/-- C10: on every non-promoted piece kind, `getReversePieceType` undoes
`promotePiece`. -/
theorem getReverse_promote_basic (k : PieceType) (h : isBasicKind k = true) :
    getReversePieceType (promotePiece k) = k := by
  cases k <;> simp_all [isBasicKind, promotePiece, getReversePieceType]

/-- Witness for C10 at the kind `Pawn`. -/
theorem getReverse_promote_basic_witness :
    isBasicKind .Pawn = true ∧ getReversePieceType (promotePiece .Pawn) = .Pawn :=
  ⟨by decide, getReverse_promote_basic .Pawn (by decide)⟩

/-- C5 counterexample: the King case of `canPieceMoveTo` accepts the
degenerate move with `from = to`, where `max(|dx|, |dy|) = 0 ≠ 1`; the
claimed equivalence with `max(|dx|, |dy|) = 1` fails at this input. -/
theorem canPieceMoveTo_king_counterexample :
    canPieceMoveTo emptyBoard ⟨4, 4⟩ ⟨4, 4⟩ ⟨.King, .sente, false⟩ .sente = true ∧
      ¬(max (((4 : Int) - 4).natAbs) (((4 : Int) - 4).natAbs) = 1) := by
  constructor
  · decide
  · decide

/-- C5, amended: the movement predicate for a King holds iff
`max(|dx|, |dy|) ≤ 1` (so it also holds when `from = to`). -/
theorem canPieceMoveTo_king_iff (board : Board) (f t : Pos) (p : Piece) (turn : Turn)
    (h : p.type = .King) :
    canPieceMoveTo board f t p turn = true ↔
      max (t.x - f.x).natAbs (t.y - f.y).natAbs ≤ 1 := by
  cases p with
  | mk ty ow pr =>
    cases h
    simp [canPieceMoveTo, Nat.max_le]

/-- Witness for C5 (amended) at a one-step king move. -/
theorem canPieceMoveTo_king_iff_witness :
    (⟨(.King : PieceType), .sente, false⟩ : Piece).type = .King ∧
      (canPieceMoveTo emptyBoard ⟨4, 4⟩ ⟨5, 4⟩ ⟨.King, .sente, false⟩ .sente = true ↔
        max (((5 : Int) - 4).natAbs) (((4 : Int) - 4).natAbs) ≤ 1) :=
  ⟨rfl, canPieceMoveTo_king_iff emptyBoard ⟨4, 4⟩ ⟨5, 4⟩ ⟨.King, .sente, false⟩ .sente rfl⟩


/-- C6 counterexample: the moving piece on the `from` square is an
unpromoted Pawn, the destination is sente's last rank and the move does
not promote, yet `isValidMove` accepts it because the dead-square gate
reads the `piece` field of the move payload (here `Gold`), not the piece
on the board. -/
theorem isValidMove_dead_square_counterexample :
    boardGet payloadBoard 1 0 = some ⟨.Pawn, .sente, false⟩ ∧
      payloadMove.drop = false ∧
      payloadMove.isPromotedMv = false ∧
      payloadMove.toSq.y = 0 ∧
      isValidMove payloadBoard emptyHands .sente payloadMove = true := by
  refine ⟨by decide, rfl, rfl, rfl, by decide⟩

/-- C6, amended: for a non-promoting board move, the dead-square
restriction is applied to the piece kind named in the move payload's
`piece` field (not to the piece standing on the `from` square):
whenever that payload kind is Pawn or Lance with destination on the
mover's last rank, or Knight with destination on the mover's last two
ranks, `isValidMove` returns `false`. -/
theorem isValidMove_dead_square_payload (b : Board) (h : Hands) (t : Turn) (m : Move)
    (hd : m.drop = false) (hp : m.isPromotedMv = false)
    (hk : ((m.piece = .Pawn ∨ m.piece = .Lance) ∧ m.toSq.y = (if t = .sente then 0 else 8)) ∨
      (m.piece = .Knight ∧ (if t = .sente then m.toSq.y ≤ 1 else 7 ≤ m.toSq.y))) :
    isValidMove b h t m = false := by
  have hds : deadSquare t m.piece m.toSq.y = true := by
    unfold deadSquare
    cases t <;> simp_all
  simp [isValidMove, hd, hp, hds]

/-- Witness for C6 (amended): a Pawn move, honestly declared in the
payload, to sente's last rank without promotion is rejected. -/
theorem isValidMove_dead_square_payload_witness :
    ((⟨some ⟨0, 1⟩, ⟨0, 0⟩, .Pawn, false, false⟩ : Move).drop = false) ∧
      isValidMove payloadBoard emptyHands .sente ⟨some ⟨0, 1⟩, ⟨0, 0⟩, .Pawn, false, false⟩ =
        false :=
  ⟨rfl,
    isValidMove_dead_square_payload payloadBoard emptyHands .sente
      ⟨some ⟨0, 1⟩, ⟨0, 0⟩, .Pawn, false, false⟩ rfl rfl (by decide)⟩

/-- C2: a move accepted by `isValidMove` never leaves the mover's own
king in check after simulation with `applyMove` (equivalently, a move
whose simulation leaves the mover in check is rejected: this is the
contrapositive of the final gate). -/
theorem isValidMove_no_self_check (b : Board) (h : Hands) (t : Turn) (m : Move)
    (hv : isValidMove b h t m = true) :
    ∃ ns, applyMove? b h m t = some ns ∧ isKingInCheck ns.board t = false := by
  cases hns : applyMove? b h m t with
  | none =>
    exfalso
    simp only [isValidMove, hns, ite_self] at hv
    exact Bool.false_ne_true hv
  | some ns =>
    refine ⟨ns, rfl, ?_⟩
    by_contra hc
    rw [Bool.not_eq_false] at hc
    simp only [isValidMove, hns, hc, Bool.not_true, ite_self] at hv
    exact Bool.false_ne_true hv

/-- Witness for C2: the opening pawn push from the initial position. -/
theorem isValidMove_no_self_check_witness :
    isValidMove createInitialBoard emptyHands .sente
        ⟨some ⟨6, 6⟩, ⟨6, 5⟩, .Pawn, false, false⟩ = true ∧
      ∃ ns,
        applyMove? createInitialBoard emptyHands ⟨some ⟨6, 6⟩, ⟨6, 5⟩, .Pawn, false, false⟩
            .sente = some ns ∧
          isKingInCheck ns.board .sente = false :=
  ⟨by decide,
    isValidMove_no_self_check createInitialBoard emptyHands .sente
      ⟨some ⟨6, 6⟩, ⟨6, 5⟩, .Pawn, false, false⟩ (by decide)⟩

/-- `isValidMoveFull` with the uchi-fu-zume rule enabled decomposes into
the plain validator plus the drop-pawn-mate gate. -/
theorem isValidMoveFull_true_eq (b : Board) (h : Hands) (t : Turn) (m : Move) :
    isValidMoveFull b h t m true =
      (isValidMove b h t m &&
        (if m.drop ∧ m.piece = .Pawn then
           match applyMove? b h m t with
           | none => true
           | some ns =>
             if isKingInCheck ns.board (otherTurn t) = true then
               hasLegalMoves ns.board ns.hands (otherTurn t)
             else true
         else true)) := by
  simp only [isValidMoveFull, isValidMove]
  repeat' (split <;> try simp_all)
  all_goals simp only [Bool.and_assoc]

/-- C3: an otherwise-legal Pawn drop (one accepted by every rule except
uchi-fu-zume, i.e. by the validator with `checkUchiFuzume = false`) is
rejected by the full validator exactly when, after the drop, the
opponent's king is in check and the opponent has no legal response —
`hasLegalMoves` tests the candidate responses with the uchi-fu-zume
check disabled.  In particular a checking Pawn drop that leaves the
opponent a legal response is accepted. -/
theorem pawn_drop_uchifuzume_iff (b : Board) (h : Hands) (t : Turn) (m : Move)
    (hd : m.drop = true) (hp : m.piece = .Pawn)
    (hcore : isValidMove b h t m = true) :
    ∃ ns, applyMove? b h m t = some ns ∧
      (isValidMoveFull b h t m true = false ↔
        isKingInCheck ns.board (otherTurn t) = true ∧
          hasLegalMoves ns.board ns.hands (otherTurn t) = false) := by
  cases hns : applyMove? b h m t with
  | none => simp [applyMove?, hd] at hns
  | some ns =>
    refine ⟨ns, rfl, ?_⟩
    rw [isValidMoveFull_true_eq, hcore, hns]
    by_cases hchk : isKingInCheck ns.board (otherTurn t) = true <;>
      by_cases hleg : hasLegalMoves ns.board ns.hands (otherTurn t) = true <;>
        simp [hd, hp, hchk, hleg]

/-- Witness for C3: on the bare two-kings board, sente's Pawn drop on
`(4,1)` gives check but the gote king can capture it, so the full
validator accepts the drop. -/
theorem pawn_drop_uchifuzume_iff_witness :
    checkingDrop.drop = true ∧
      isValidMove kingsBoard onePawnHands .sente checkingDrop = true ∧
      (∃ ns, applyMove? kingsBoard onePawnHands checkingDrop .sente = some ns ∧
        (isValidMoveFull kingsBoard onePawnHands .sente checkingDrop true = false ↔
          isKingInCheck ns.board (otherTurn .sente) = true ∧
            hasLegalMoves ns.board ns.hands (otherTurn .sente) = false)) :=
  ⟨rfl, by decide,
    pawn_drop_uchifuzume_iff kingsBoard onePawnHands .sente checkingDrop rfl rfl (by decide)⟩

/-- C7 counterexample: the `reset` handler has no status gate; on a room
with `status = playing` it clears the history and zeroes `gameCount`,
so the room state does not stay unchanged. -/
theorem resetHandler_playing_counterexample :
    midGameRoom.status = .playing ∧
      (resetHandler midGameRoom).gameCount ≠ midGameRoom.gameCount ∧
      (resetHandler midGameRoom).history ≠ midGameRoom.history := by
  refine ⟨rfl, by decide, by decide⟩

/-- C7, amended: a `reset` event takes effect in every status, including
`playing`: it clears history, board, hands and fingerprint counts,
clears the winner, ready flags and rematch requests, restores `times`
from the settings and zeroes `gameCount`, while leaving the status,
`currentByoyomi`, `totalConsumedTimes`, `lastMoveTimestamp`,
`gameStartTime` and the settings unchanged. -/
theorem resetHandler_spec (r : Room) :
    (resetHandler r).history = [] ∧
      (resetHandler r).board = createInitialBoard ∧
      (resetHandler r).hands = emptyHands ∧
      (resetHandler r).sfenHistory = [] ∧
      (resetHandler r).winner = none ∧
      (resetHandler r).ready = ⟨false, false⟩ ∧
      (resetHandler r).rematchRequests = ⟨false, false⟩ ∧
      (resetHandler r).times = ⟨r.settings.initial, r.settings.initial⟩ ∧
      (resetHandler r).gameCount = 0 ∧
      (resetHandler r).status = r.status ∧
      (resetHandler r).currentByoyomi = r.currentByoyomi ∧
      (resetHandler r).totalConsumedTimes = r.totalConsumedTimes ∧
      (resetHandler r).lastMoveTimestamp = r.lastMoveTimestamp ∧
      (resetHandler r).gameStartTime = r.gameStartTime ∧
      (resetHandler r).settings = r.settings :=
  ⟨rfl, rfl, rfl, rfl, rfl, rfl, rfl, rfl, rfl, rfl, rfl, rfl, rfl, rfl, rfl⟩

theorem applyMove?_turn (b : Board) (h : Hands) (m : Move) (t : Turn) (ns : MoveRes)
    (hns : applyMove? b h m t = some ns) : ns.turn = otherTurn t := by
  unfold applyMove? at hns
  split at hns
  · cases hns
    rfl
  · split at hns
    · simp at hns
    · split at hns
      · simp at hns
      · cases hns
        rfl

theorem replayFrom_append (l : List AMove) (m : AMove) (s : MoveRes) :
    replayFrom s (l ++ [m]) =
      (replayFrom s l).bind (fun s2 => applyMove? s2.board s2.hands m.mv s2.turn) := by
  induction l generalizing s with
  | nil =>
    simp only [List.nil_append, replayFrom]
    cases ha : applyMove? s.board s.hands m.mv s.turn <;> simp [replayFrom, ha]
  | cons a rest ih =>
    simp only [List.cons_append, replayFrom]
    cases ha : applyMove? s.board s.hands a.mv s.turn with
    | none => simp
    | some s2 => simpa using ih s2

theorem replayS_append (h : List AMove) (m : AMove) :
    replayS (h ++ [m]) =
      (replayS h).bind (fun s2 => applyMove? s2.board s2.hands m.mv s2.turn) :=
  replayFrom_append h m initialRState

theorem turnOf_append_one (h : List AMove) (m : AMove) :
    turnOf (h ++ [m]) = otherTurn (turnOf h) := by
  simp only [turnOf, List.length_append, List.length_cons, List.length_nil]
  by_cases hp : h.length % 2 = 0
  · rw [if_pos hp, if_neg (by omega)]
    rfl
  · rw [if_neg hp, if_pos (by omega)]
    rfl

theorem moveAnalysisBranch_status (r : Room) (m : Move) (bi : Option Int) :
    (moveAnalysisBranch r m bi).status = r.status := by
  unfold moveAnalysisBranch
  repeat' split
  all_goals simp only []
  repeat' split
  all_goals rfl

theorem updateRoomTime_core (r : Room) (now : Int) :
    (updateRoomTime r now).history = r.history ∧
      (updateRoomTime r now).board = r.board ∧
      (updateRoomTime r now).hands = r.hands ∧
      (updateRoomTime r now).status = r.status := by
  unfold updateRoomTime
  repeat' split
  all_goals simp only []
  repeat' split
  all_goals simp

theorem replayInv_step (r : Room) (e : GEvent) (hr : r.status = .playing → ReplayInv r)
    (hp : (stepRoom r e).status = .playing) : ReplayInv (stepRoom r e) := by
  cases e with
  | moveEv m bi now =>
    simp only [stepRoom, moveHandler] at hp ⊢
    by_cases h1 : r.status = .analysis ∨ r.status = .finished
    · rw [if_pos h1] at hp ⊢
      dsimp only at hp
      rw [moveAnalysisBranch_status] at hp
      rcases h1 with h1 | h1 <;> rw [h1] at hp <;> exact absurd hp (by decide)
    · rw [if_neg h1] at hp ⊢
      by_cases h2 : ¬isValidMove r.board r.hands (turnOf r.history) m = true
      · rw [if_pos h2] at hp ⊢
        exact hr hp
      · rw [if_neg h2] at hp ⊢
        by_cases h3 : r.status = .playing
        · rw [if_pos h3] at hp ⊢
          cases heq : applyMove? r.board r.hands m (turnOf r.history) with
          | none =>
            rw [heq] at hp
            dsimp only at hp ⊢
            exact hr h3
          | some res =>
            rw [heq] at hp
            dsimp only at hp ⊢
            by_cases h4 : isCheckmate res.board res.hands (otherTurn (turnOf r.history)) = true
            · rw [if_pos h4] at hp ⊢
              exact absurd hp (by simp [handleGameEnd])
            · rw [if_neg h4] at hp ⊢
              by_cases h5 : 4 ≤ sfenGet r.sfenHistory
                  (generateSFEN res.board (otherTurn (turnOf r.history)) res.hands) + 1
              · rw [if_pos h5] at hp ⊢
                split at hp
                · exact absurd hp (by simp)
                · exact absurd hp (by simp [handleGameEnd])
              · rw [if_neg h5] at hp ⊢
                have hInv := hr h3
                unfold ReplayInv
                dsimp only
                rw [replayS_append, hInv]
                dsimp only [Option.bind]
                rw [heq]
                have ht := applyMove?_turn _ _ _ _ _ heq
                rw [turnOf_append_one, ← ht]
        · rw [if_neg h3] at hp ⊢
          exact absurd hp h3
  | toggleReadyEv role now =>
    simp only [stepRoom, toggleReadyHandler] at hp ⊢
    by_cases hb : ((r.ready.set role !r.ready.get role).sente &&
        (r.ready.set role !r.ready.get role).gote) = true
    · rw [if_pos hb] at hp ⊢
      rfl
    · rw [if_neg hb] at hp ⊢
      exact hr hp
  | resignEv loser =>
    simp only [stepRoom, resignHandler, handleGameEnd] at hp
    exact absurd hp (by decide)
  | undoEv =>
    simp only [stepRoom, undoHandler] at hp ⊢
    by_cases hg : r.status ≠ .playing ∧ 0 < r.history.length
    · rw [if_pos hg] at hp ⊢
      split at hp <;> exact absurd hp hg.1
    · rw [if_neg hg] at hp ⊢
      exact hr hp
  | resetEv => rfl
  | rematchEv role now =>
    simp only [stepRoom, rematchHandler] at hp ⊢
    by_cases hb : ((r.rematchRequests.set role true).sente &&
        (r.rematchRequests.set role true).gote) = true
    · rw [if_pos hb] at hp ⊢
      simp at hp
    · rw [if_neg hb] at hp ⊢
      exact hr hp
  | tickEv now =>
    simp only [stepRoom, tickHandler] at hp ⊢
    by_cases c1 : ¬r.timerOn = true
    · rw [if_pos c1] at hp ⊢
      exact hr hp
    · rw [if_neg c1] at hp ⊢
      by_cases c2 : (0 : Int) < r.times.get (turnOf r.history) -
          (now - r.lastMoveTimestamp).fdiv 1000
      · rw [if_pos c2] at hp ⊢
        exact hr hp
      · rw [if_neg c2] at hp ⊢
        by_cases c3 : r.settings.byoyomi -
            -(r.times.get (turnOf r.history) - (now - r.lastMoveTimestamp).fdiv 1000) ≤ -1
        · rw [if_pos c3] at hp ⊢
          simp [handleGameEnd] at hp
        · rw [if_neg c3] at hp ⊢
          exact hr hp
  | pauseEv now =>
    simp only [stepRoom, pauseHandler] at hp ⊢
    by_cases c1 : r.timerOn = true
    · rw [if_pos c1] at hp ⊢
      have hc := updateRoomTime_core r now
      have hst : (updateRoomTime r now).status = r.status := hc.2.2.2
      rw [hst] at hp
      have hInv := hr hp
      show replayS (updateRoomTime r now).history =
        some ⟨(updateRoomTime r now).board, (updateRoomTime r now).hands,
          turnOf (updateRoomTime r now).history⟩
      rw [hc.1, hc.2.1, hc.2.2.1]
      exact hInv
    · rw [if_neg c1] at hp ⊢
      exact hr hp
  | updateSettingsEv s =>
    simp only [stepRoom, updateSettingsHandler] at hp ⊢
    by_cases c1 : r.status = .waiting
    · rw [if_pos c1] at hp ⊢
      exact hr hp
    · rw [if_neg c1] at hp ⊢
      exact hr hp

/-- C1 counterexample: in an analysis room the `move` handler records
the move in the history without applying it, so replaying the accepted
history from the initial position does not reproduce the room's board.
-/
theorem replay_analysis_counterexample :
    (freshRoom true 0).status = .analysis ∧
      analysisPushedRoom.history.length = 1 ∧
      (replayS analysisPushedRoom.history).isSome = true ∧
      (replayS analysisPushedRoom.history).map MoveRes.board ≠ some analysisPushedRoom.board := by
  refine ⟨rfl, by decide, by decide, by decide⟩

/-- C1, amended: replay determinism holds for rooms in status `playing`:
after any event sequence applied to a fresh room (normal or analysis
mode), if the room is in status `playing` then replaying its history
from the fixed initial position with `applyMove` reproduces exactly its
board and hands.  (In analysis or finished mode the `move` handler
appends moves without applying them, so the equation may fail there.) -/
theorem replay_determinism_playing (analysisMode : Bool) (now : Int) (es : List GEvent)
    (hp : (runRoom (freshRoom analysisMode now) es).status = .playing) :
    ReplayInv (runRoom (freshRoom analysisMode now) es) := by
  have main : ∀ (l : List GEvent) (r : Room), (r.status = .playing → ReplayInv r) →
      ((runRoom r l).status = .playing → ReplayInv (runRoom r l)) := by
    intro l
    induction l with
    | nil => intro r h; exact h
    | cons e rest ih =>
      intro r h
      exact ih (stepRoom r e) (replayInv_step r e h)
  exact main es (freshRoom analysisMode now) (fun _ => rfl) hp

/-- Witness for C1 (amended): both players readying up starts a game;
the fresh playing room satisfies replay determinism. -/
theorem replay_determinism_playing_witness :
    (runRoom (freshRoom false 0) [.toggleReadyEv .sente 0, .toggleReadyEv .gote 0]).status =
        .playing ∧
      ReplayInv (runRoom (freshRoom false 0) [.toggleReadyEv .sente 0, .toggleReadyEv .gote 0]) :=
  ⟨by decide, replay_determinism_playing false 0 [.toggleReadyEv .sente 0, .toggleReadyEv .gote 0]
    (by decide)⟩

theorem SidePair.get_le_set (p : SidePair Int) (t s : Turn) (v : Int) (h : p.get t ≤ v) :
    p.get s ≤ (p.set t v).get s := by
  cases t <;> cases s <;> simp [SidePair.get, SidePair.set] <;> exact h

theorem moveAnalysisBranch_totalConsumed (r : Room) (m : Move) (bi : Option Int) :
    (moveAnalysisBranch r m bi).totalConsumedTimes = r.totalConsumedTimes := by
  unfold moveAnalysisBranch
  repeat' split
  all_goals simp only []
  repeat' split
  all_goals rfl

/-- `updateRoomTime` either leaves `totalConsumedTimes` unchanged (room
not playing) or adds the elapsed milliseconds to the mover's total. -/
theorem updateRoomTime_totalConsumed (r : Room) (now : Int) :
    (updateRoomTime r now).totalConsumedTimes = r.totalConsumedTimes ∨
      (updateRoomTime r now).totalConsumedTimes =
        r.totalConsumedTimes.set (turnOf r.history)
          (r.totalConsumedTimes.get (turnOf r.history) + (now - r.lastMoveTimestamp)) := by
  unfold updateRoomTime
  split
  · exact Or.inl rfl
  · simp only []
    repeat' split
    all_goals exact Or.inr rfl

/-- The `move` handler either leaves `totalConsumedTimes` unchanged or
(in a playing room) adds the elapsed milliseconds to the mover's total.
-/
theorem moveHandler_totalConsumed (r : Room) (m : Move) (bi : Option Int) (now : Int) :
    (moveHandler r m bi now).room.totalConsumedTimes = r.totalConsumedTimes ∨
      (moveHandler r m bi now).room.totalConsumedTimes =
        r.totalConsumedTimes.set (turnOf r.history)
          (r.totalConsumedTimes.get (turnOf r.history) + (now - r.lastMoveTimestamp)) := by
  simp only [moveHandler]
  split
  · exact Or.inl (moveAnalysisBranch_totalConsumed r m bi)
  · split
    · exact Or.inl rfl
    · split
      · split
        · exact Or.inr rfl
        · split
          · exact Or.inr rfl
          · split
            · split
              · exact Or.inr rfl
              · exact Or.inr rfl
            · exact Or.inr rfl
      · exact Or.inl rfl

theorem stepRoom_totalConsumed_mono (r : Room) (e : GEvent) (s : Turn)
    (hg : inGameEv e = true) (ht : evTimeOk r e = true) :
    r.totalConsumedTimes.get s ≤ (stepRoom r e).totalConsumedTimes.get s := by
  cases e with
  | moveEv m bi now =>
    have hnow : r.lastMoveTimestamp ≤ now := by simpa [evTimeOk] using ht
    show r.totalConsumedTimes.get s ≤ (moveHandler r m bi now).room.totalConsumedTimes.get s
    rcases moveHandler_totalConsumed r m bi now with h | h
    · rw [h]
    · rw [h]
      exact SidePair.get_le_set _ _ _ _ (by omega)
  | toggleReadyEv role now => simp [inGameEv] at hg
  | rematchEv role now => simp [inGameEv] at hg
  | resignEv loser => exact le_refl _
  | undoEv =>
    simp only [stepRoom, undoHandler]
    repeat' split
    all_goals exact le_refl _
  | resetEv => exact le_refl _
  | tickEv now =>
    simp only [stepRoom, tickHandler]
    repeat' split
    all_goals exact le_refl _
  | pauseEv now =>
    have hnow : r.lastMoveTimestamp ≤ now := by simpa [evTimeOk] using ht
    simp only [stepRoom, pauseHandler]
    split
    · show r.totalConsumedTimes.get s ≤ (updateRoomTime r now).totalConsumedTimes.get s
      rcases updateRoomTime_totalConsumed r now with h | h
      · rw [h]
      · rw [h]
        exact SidePair.get_le_set _ _ _ _ (by omega)
    · exact le_refl _
  | updateSettingsEv st =>
    simp only [stepRoom, updateSettingsHandler]
    split
    · exact le_refl _
    · exact le_refl _

/-- C8: along any sequence of in-game events (all events except the two
game-boundary completions, which reinitialize the clocks for a new
game) processed with a monotone wall clock, `totalConsumedTimes` of
each seat never decreases.  This covers both time-accounting sites: the
`move` handler of `index.js` and `updateRoomTime` (the disconnect
pause-commit of the later iteration). -/
theorem totalConsumedTimes_monotone (r : Room) (es : List GEvent) (s : Turn)
    (hg : ∀ e ∈ es, inGameEv e = true) (ht : timedOk r es = true) :
    r.totalConsumedTimes.get s ≤ (runRoom r es).totalConsumedTimes.get s := by
  induction es generalizing r with
  | nil => exact le_refl _
  | cons e rest ih =>
    simp only [timedOk, Bool.and_eq_true] at ht
    have h1 := stepRoom_totalConsumed_mono r e s (hg e (by simp)) ht.1
    have h2 := ih (stepRoom r e) (fun x hx => hg x (by simp [hx])) ht.2
    exact le_trans h1 h2

/-- Witness for C8: a gote reply played five seconds into a game. -/
theorem totalConsumedTimes_monotone_witness :
    (∀ e ∈ [GEvent.moveEv ⟨some ⟨2, 2⟩, ⟨2, 3⟩, .Pawn, false, false⟩ none 5000],
        inGameEv e = true) ∧
      timedOk midGameRoom [GEvent.moveEv ⟨some ⟨2, 2⟩, ⟨2, 3⟩, .Pawn, false, false⟩ none 5000] =
        true ∧
      midGameRoom.totalConsumedTimes.get .gote ≤
        SidePair.get
          (Room.totalConsumedTimes
            (runRoom midGameRoom
              [GEvent.moveEv ⟨some ⟨2, 2⟩, ⟨2, 3⟩, .Pawn, false, false⟩ none 5000])) .gote :=
  ⟨by decide, by decide,
    totalConsumedTimes_monotone midGameRoom
      [GEvent.moveEv ⟨some ⟨2, 2⟩, ⟨2, 3⟩, .Pawn, false, false⟩ none 5000] .gote (by decide)
      (by decide)⟩


theorem boardAddrs_boardHSet (b : BoardH) (y x : Int) (v : Option Nat) (a : Nat)
    (ha : a ∈ boardAddrs (boardHSet b y x v)) : a ∈ boardAddrs b ∨ v = some a := by
  unfold boardHSet at ha
  split at ha
  · unfold boardAddrs at ha ⊢
    rw [List.mem_flatMap] at ha
    obtain ⟨row2, hrow2, hmem⟩ := ha
    rcases List.mem_or_eq_of_mem_set hrow2 with hrm | hre
    · exact Or.inl (List.mem_flatMap.2 ⟨row2, hrm, hmem⟩)
    · subst hre
      rw [List.mem_filterMap] at hmem
      obtain ⟨c, hc, hid⟩ := hmem
      rcases List.mem_or_eq_of_mem_set hc with hcm | hce
      · left
        by_cases hlen : y.toNat < b.length
        · refine List.mem_flatMap.2 ⟨List.getD b y.toNat [], ?_, List.mem_filterMap.2 ⟨c, hcm, hid⟩⟩
          rw [List.getD_eq_getElem b [] hlen]
          exact List.getElem_mem hlen
        · rw [List.getD_eq_default b [] (by omega)] at hcm
          simp at hcm
      · right
        rw [hce] at hid
        cases v with
        | none => simp at hid
        | some w => simpa using hid
  · exact Or.inl ha

theorem copyRowH_spec (row : List (Option Nat)) (σ : JSHeap) :
    σ.nextP ≤ (copyRowH σ row).1.nextP ∧
      (∀ a, a < σ.nextP → (copyRowH σ row).1.pieceAt a = σ.pieceAt a) ∧
      (copyRowH σ row).1.handAt = σ.handAt ∧
      (copyRowH σ row).1.nextH = σ.nextH ∧
      (∀ a ∈ (copyRowH σ row).2.filterMap id, σ.nextP ≤ a) := by
  induction row generalizing σ with
  | nil => simp [copyRowH]
  | cons c rest ih =>
    cases c with
    | none =>
      have h := ih σ
      simp only [copyRowH]
      exact ⟨h.1, h.2.1, h.2.2.1, h.2.2.2.1, by simpa using h.2.2.2.2⟩
    | some a =>
      have h := ih (allocPiece σ (σ.pieceAt a)).1
      have hnp : (allocPiece σ (σ.pieceAt a)).1.nextP = σ.nextP + 1 := rfl
      simp only [copyRowH]
      refine ⟨by omega, ?_, h.2.2.1, h.2.2.2.1, ?_⟩
      · intro b hb
        rw [h.2.1 b (by omega)]
        simp only [allocPiece]
        rw [if_neg (by omega)]
      · intro b hb
        simp only [List.filterMap_cons, id] at hb
        rcases List.mem_cons.1 hb with hbe | hbm
        · subst hbe
          show σ.nextP ≤ σ.nextP
          exact le_refl _
        · have := h.2.2.2.2 b hbm
          omega

theorem copyBoardH_spec (b : BoardH) (σ : JSHeap) :
    σ.nextP ≤ (copyBoardH σ b).1.nextP ∧
      (∀ a, a < σ.nextP → (copyBoardH σ b).1.pieceAt a = σ.pieceAt a) ∧
      (copyBoardH σ b).1.handAt = σ.handAt ∧
      (copyBoardH σ b).1.nextH = σ.nextH ∧
      (∀ a ∈ boardAddrs (copyBoardH σ b).2, σ.nextP ≤ a) := by
  induction b generalizing σ with
  | nil => simp [copyBoardH, boardAddrs]
  | cons row rest ih =>
    have hr := copyRowH_spec row σ
    have hb := ih (copyRowH σ row).1
    simp only [copyBoardH]
    refine ⟨by omega, ?_, by rw [hb.2.2.1, hr.2.2.1], by rw [hb.2.2.2.1, hr.2.2.2.1], ?_⟩
    · intro a ha
      rw [hb.2.1 a (by omega), hr.2.1 a ha]
    · intro a ha
      simp only [boardAddrs, List.flatMap_cons, List.mem_append] at ha
      rcases ha with ha | ha
      · exact hr.2.2.2.2 a ha
      · have := hb.2.2.2.2 a ha
        omega

/-- C9: `applyMove` is pure with respect to its inputs.  In the
heap-level model, on well-formed inputs no previously allocated piece or
hand object is modified (the input board and hands are unchanged after
the call) and every object reachable from the returned board and hands
is freshly allocated, so the results share no mutable cell with the
inputs. -/
theorem applyMoveH_frame (σ : JSHeap) (b : BoardH) (h : HandsH) (m : Move) (t : Turn)
    (hwf : heapWF σ b h) : applyMoveFrame σ b h (applyMoveH σ b h m t) := by
  obtain ⟨hwb, hws, hwg⟩ := hwf
  have hc := copyBoardH_spec b σ
  have hP : σ.nextP ≤ (copyBoardH σ b).1.nextP := hc.1
  have hH : (copyBoardH σ b).1.nextH = σ.nextH := hc.2.2.2.1
  simp only [applyMoveH]
  split
  · -- drop branch
    simp only [applyMoveFrame, allocHand, allocPiece, handMutate]
    refine ⟨?_, ?_, ?_, ?_, ?_⟩
    · intro a ha
      rw [if_neg (by omega)]
      exact hc.2.1 a ha
    · intro a ha
      cases t <;> simp only [HandsH.get] <;>
        rw [if_neg (by omega), if_neg (by omega), if_neg (by omega)] <;>
        exact congrFun hc.2.2.1 a
    · intro a ha
      have hge : σ.nextP ≤ a := by
        rcases boardAddrs_boardHSet _ _ _ _ _ ha with hm | he
        · exact hc.2.2.2.2 a hm
        · have : a = (copyBoardH σ b).1.nextP := by
            simpa using he.symm
          omega
      exact ⟨hge, fun hmem => by have := hwb a hmem; omega⟩
    · exact ⟨by omega, by omega, by omega⟩
    · exact ⟨by omega, by omega, by omega⟩
  · -- board-move branch
    split
    · trivial
    · split
      · trivial
      · split <;>
        · simp only [applyMoveFrame, allocHand, allocPiece, handMutate]
          refine ⟨?_, ?_, ?_, ?_, ?_⟩
          · intro a ha
            rw [if_neg (by omega)]
            exact hc.2.1 a ha
          · intro a ha
            cases t <;> (try simp only [HandsH.get]) <;>
              first
                | (rw [if_neg (by omega), if_neg (by omega), if_neg (by omega)]
                   exact congrFun hc.2.2.1 a)
                | (rw [if_neg (by omega), if_neg (by omega)]
                   exact congrFun hc.2.2.1 a)
          · intro a ha
            have hge : σ.nextP ≤ a := by
              rcases boardAddrs_boardHSet _ _ _ _ _ ha with hm | he
              · rcases boardAddrs_boardHSet _ _ _ _ _ hm with hm2 | he2
                · exact hc.2.2.2.2 a hm2
                · have : a = (copyBoardH σ b).1.nextP := by
                    simpa using he2.symm
                  omega
              · simp at he
            exact ⟨hge, fun hmem => by have := hwb a hmem; omega⟩
          · exact ⟨by omega, by omega, by omega⟩
          · exact ⟨by omega, by omega, by omega⟩

/-- Witness for C9: one pawn move on a small well-formed heap. -/
theorem applyMoveH_frame_witness :
    heapWF heapW heapBoardW heapHandsW ∧
      applyMoveFrame heapW heapBoardW heapHandsW
        (applyMoveH heapW heapBoardW heapHandsW
          ⟨some ⟨6, 6⟩, ⟨6, 5⟩, .Pawn, false, false⟩ .sente) :=
  ⟨by decide,
    applyMoveH_frame heapW heapBoardW heapHandsW
      ⟨some ⟨6, 6⟩, ⟨6, 5⟩, .Pawn, false, false⟩ .sente (by decide)⟩

theorem repFlags_fold (hist : List AMove) (l : List Int) (st : Bool × Bool × Bool × Bool) :
    l.foldl (repFlagsStep hist) st =
      (st.1 && l.all (fun i =>
          if i % 2 = 0 then (hist.getD i.toNat dummyAMove).isCheck else true),
       st.2.1 && l.all (fun i =>
          if ¬i % 2 = 0 then (hist.getD i.toNat dummyAMove).isCheck else true),
       st.2.2.1 || l.any (fun i => decide (i % 2 = 0)),
       st.2.2.2 || l.any (fun i => decide (¬i % 2 = 0))) := by
  induction l generalizing st with
  | nil => simp
  | cons x xs ih =>
    rw [List.foldl_cons, ih]
    by_cases hpar : x % 2 = 0
    · have hdvd : (2 : Int) ∣ x := Int.dvd_of_emod_eq_zero hpar
      simp [repFlagsStep, hpar, hdvd, List.all_cons, List.any_cons, Bool.and_assoc,
        Bool.or_assoc]
    · have hndvd : ¬(2 : Int) ∣ x := fun hd => hpar (Int.emod_eq_zero_of_dvd hd)
      have hodd : x % 2 = 1 := by omega
      simp [repFlagsStep, hpar, hodd, hndvd, List.all_cons, List.any_cons, Bool.and_assoc,
        Bool.or_assoc]

theorem all_ite_check (hist : List AMove) (c : Int → Prop) [DecidablePred c] (l : List Int) :
    (l.all (fun i => if c i then (hist.getD i.toNat dummyAMove).isCheck else true) = true) ↔
      (∀ i ∈ l, c i → (hist.getD i.toNat dummyAMove).isCheck = true) := by
  rw [List.all_eq_true]
  constructor
  · intro h i hi hc
    have := h i hi
    rwa [if_pos hc] at this
  · intro h i hi
    by_cases hc : c i
    · rw [if_pos hc]
      exact h i hi hc
    · rw [if_neg hc]

theorem any_decide (c : Int → Prop) [DecidablePred c] (l : List Int) :
    (l.any (fun i => decide (c i)) = true) ↔ (∃ i ∈ l, c i) := by
  simp only [List.any_eq_true, decide_eq_true_eq]

theorem classifyRep_eq_decl (hist : List AMove) (idxs : List Int) (hlen : 2 ≤ idxs.length) :
    classifyRep hist idxs = classifySpec hist idxs := by
  unfold classifyRep classifySpec
  rw [if_neg (by omega)]
  simp only [repFlags_fold, Bool.true_and, Bool.false_or]
  exact if_congr
    (and_congr (any_decide _ _) (all_ite_check hist _ _))
    rfl
    (if_congr (and_congr (any_decide _ _) (all_ite_check hist _ _)) rfl rfl)

theorem occScan_last (target : String) (l : List AMove) :
    ∀ (s0 : MoveRes) (k : Nat) (tl : List Int) (s : MoveRes),
      occScan target l s0 k = some tl →
      replayFrom s0 l = some s →
      generateSFEN s.board s.turn s.hands = target →
      l ≠ [] →
      tl ≠ [] ∧ tl.getD (tl.length - 1) 0 = (k : Int) + l.length - 1 := by
  induction l with
  | nil =>
    intro s0 k tl s hscan hrep hsfen hne
    exact absurd rfl hne
  | cons a rest ih =>
    intro s0 k tl s hscan hrep hsfen hne
    simp only [occScan] at hscan
    simp only [replayFrom] at hrep
    cases ha : applyMove? s0.board s0.hands a.mv s0.turn with
    | none =>
      rw [ha] at hscan
      simp at hscan
    | some s1 =>
      rw [ha] at hscan hrep
      simp only [] at hscan hrep
      cases hs2 : occScan target rest s1 (k + 1) with
      | none =>
        rw [hs2] at hscan
        simp at hscan
      | some tl2 =>
        rw [hs2] at hscan
        simp only [Option.some.injEq] at hscan
        cases rest with
        | nil =>
          simp only [replayFrom, Option.some.injEq] at hrep
          subst hrep
          simp only [occScan, Option.some.injEq] at hs2
          subst hs2
          rw [if_pos hsfen] at hscan
          subst hscan
          constructor
          · simp
          · simp
        | cons b rest2 =>
          obtain ⟨htlne, hlast⟩ := ih s1 (k + 1) tl2 s hs2 hrep hsfen (by simp)
          subst hscan
          have hlen2 : 1 ≤ tl2.length := by
            cases tl2 with
            | nil => exact absurd rfl htlne
            | cons c cs => simp
          constructor
          · simp [htlne]
          · by_cases hq : generateSFEN s1.board s1.turn s1.hands = target
            · rw [if_pos hq]
              have hidx : ([(k : Int)] ++ tl2).length - 1 = (tl2.length - 1) + 1 := by
                simp
                omega
              rw [hidx]
              rw [List.singleton_append, List.getD_cons_succ]
              rw [hlast]
              simp only [List.length_cons]
              push_cast
              ring
            · rw [if_neg hq]
              rw [List.nil_append]
              rw [hlast]
              simp only [List.length_cons]
              push_cast
              ring

theorem repIndices_last (hist : List AMove) (target : String) (s : MoveRes) (idxs : List Int)
    (hrep : replayS hist = some s)
    (hsfen : generateSFEN s.board s.turn s.hands = target)
    (hidx : repIndices hist target = some idxs)
    (hne : hist ≠ []) :
    idxs ≠ [] ∧ idxs.getD (idxs.length - 1) 0 = (hist.length : Int) - 1 := by
  have hrep' : replayFrom initialRState hist = some s := hrep
  unfold repIndices at hidx
  cases hscan : occScan target hist initialRState 0 with
  | none =>
    rw [hscan] at hidx
    simp at hidx
  | some occ =>
    rw [hscan] at hidx
    simp only [Option.some.injEq] at hidx
    obtain ⟨hone, hlast⟩ := occScan_last target hist initialRState 0 occ s hscan hrep' hsfen hne
    subst hidx
    have h1 : 1 ≤ occ.length := by
      cases occ with
      | nil => exact absurd rfl hone
      | cons c cs => simp
    by_cases hq : initialSfen = target
    · rw [if_pos hq]
      refine ⟨by simp, ?_⟩
      have hidx2 : ([(-1 : Int)] ++ occ).length - 1 = (occ.length - 1) + 1 := by
        simp
        omega
      rw [hidx2, List.singleton_append, List.getD_cons_succ, hlast]
      omega
    · rw [if_neg hq, List.nil_append]
      refine ⟨hone, ?_⟩
      rw [hlast]
      omega

/-- C4: when a validated, non-checkmating move in a playing room brings
the resulting position's fingerprint count to four, the move handler
finishes the game as a repetition: the last recorded occurrence index is
the current move's history index, and the emitted winner and reason are
exactly the declarative classification `classifySpec` of the block of
history moves strictly after the previous occurrence of the fingerprint
up to and including the current move (every-sente-move-checks with a
sente move present gives gote the win by illegal perpetual check,
symmetrically for gote, and otherwise the repetition is a draw with no
winner). -/
theorem repetition_classification (r : Room) (m : Move) (now : Int) (res : MoveRes)
    (idxs : List Int)
    (hst : r.status = .playing) (hinv : ReplayInv r)
    (hv : isValidMove r.board r.hands (turnOf r.history) m = true)
    (hres : applyMove? r.board r.hands m (turnOf r.history) = some res)
    (hnm : isCheckmate res.board res.hands (otherTurn (turnOf r.history)) = false)
    (h4 : 4 ≤ sfenGet r.sfenHistory
        (generateSFEN res.board (otherTurn (turnOf r.history)) res.hands) + 1)
    (hidx : repIndices (r.history ++ [moveWithInfo r m now res])
        (generateSFEN res.board (otherTurn (turnOf r.history)) res.hands) = some idxs)
    (hlen : 2 ≤ idxs.length) :
    (moveHandler r m none now).room.status = .finished ∧
      idxs.getD (idxs.length - 1) 0 =
        ((r.history ++ [moveWithInfo r m now res]).length : Int) - 1 ∧
      (moveHandler r m none now).gameEnd =
        some (classifySpec (r.history ++ [moveWithInfo r m now res]) idxs) ∧
      (moveHandler r m none now).room.winner =
        (classifySpec (r.history ++ [moveWithInfo r m now res]) idxs).1 := by
  have ht : res.turn = otherTurn (turnOf r.history) := applyMove?_turn _ _ _ _ _ hres
  have hs2 : replayS (r.history ++ [moveWithInfo r m now res]) = some res := by
    rw [replayS_append, hinv]
    dsimp only [Option.bind, moveWithInfo]
    exact hres
  have hsfen : generateSFEN res.board res.turn res.hands =
      generateSFEN res.board (otherTurn (turnOf r.history)) res.hands := by rw [ht]
  have hlastIdx := repIndices_last (r.history ++ [moveWithInfo r m now res])
    (generateSFEN res.board (otherTurn (turnOf r.history)) res.hands) res idxs hs2 hsfen hidx
    (by simp)
  have hout : (moveHandler r m none now).room.status = .finished ∧
      (moveHandler r m none now).gameEnd =
        some (classifyRep (r.history ++ [moveWithInfo r m now res]) idxs) ∧
      (moveHandler r m none now).room.winner =
        (classifyRep (r.history ++ [moveWithInfo r m now res]) idxs).1 := by
    simp only [moveWithInfo] at hidx ⊢
    simp only [moveHandler]
    have h1 : ¬(r.status = .analysis ∨ r.status = .finished) := by
      rw [hst]
      simp
    rw [if_neg h1]
    rw [if_neg (not_not_intro hv)]
    rw [if_pos hst]
    rw [hres]
    dsimp only
    rw [if_neg (by simp [hnm])]
    rw [if_pos h4]
    rw [hidx]
    dsimp only [handleGameEnd]
    exact ⟨rfl, rfl, rfl⟩
  rw [classifyRep_eq_decl _ _ hlen] at hout
  exact ⟨hout.1, hlastIdx.2, hout.2.1, hout.2.2⟩

set_option maxRecDepth 100000

/-- Witness for the repetition theorem: in a playing room three plies
into a gold shuffle whose fingerprint table already shows three
occurrences of the initial position, the gote gold's return move ends
the game as a sennichite draw, classified over the block of indices
(-1, 3]. -/
theorem repetition_classification_witness :
    goldRoomPre.status = .playing ∧
    (moveHandler goldRoomPre goldG2 none 1000).room.status = .finished ∧
    (moveHandler goldRoomPre goldG2 none 1000).gameEnd =
      some (classifySpec
        (goldRoomPre.history ++ [moveWithInfo goldRoomPre goldG2 1000 goldRes])
        [(-1 : Int), 3]) := by
  have h := repetition_classification goldRoomPre goldG2 1000 goldRes
    [(-1 : Int), 3] (by decide) (by decide) (by decide) (by decide)
    (by decide) (by decide) (by decide) (by decide)
  exact ⟨by decide, h.1, h.2.2.1⟩
